import Mathlib

/-!
Verification development for the `bridge` publishing plugin
(`src/main.ts`).  The definitions below are a shallow embedding of the
`publish-garden` pipeline: note classification, link extraction, the
change ledger kept in the `bridge-sys.md` frontmatter, the HTML template
filling, and the two publish sinks (the GitHub commit builder and the
blob-store uploader).  JavaScript numbers that can be `NaN` are modelled
as `Option Int`; JS objects used as string-keyed maps are modelled as
functions `String → Option MVal`.
-/

set_option maxRecDepth 10000

/-- A value stored in the `bridge-sys.md` frontmatter ledger: notes store
their `updated` string, assets store their numeric mtime. -/
inductive MVal where
  | s (v : String)
  | n (v : Int)
  deriving DecidableEq, Repr

/-- The ledger (`store` in `main.ts`): the frontmatter object of
`bridge-sys.md`, a string-keyed map. -/
def Store : Type := String → Option MVal

/-- JS property assignment `store[k] = v`. -/
def setStore (st : Store) (k : String) (v : MVal) : Store :=
  fun k2 => if k2 = k then some v else st k2

/-- JS numeric coercion `+store[asset.name]` (line 250): numbers pass
through, numeric strings parse, everything else (including a missing
key) is `NaN`, modelled as `none`. -/
def toNum (v : Option MVal) : Option Int :=
  match v with
  | some (.n x) => some x
  | some (.s x) => x.toInt?
  | none => none

/-- `unixtimeCloseEnough` (main.ts lines 546-550):
`Math.abs(b - a) < 15 * 60`, with `NaN` (here `none`) comparing false. -/
def unixtimeCloseEnough (a b : Option Int) : Bool :=
  match a, b with
  | some x, some y => (y - x).natAbs < 15 * 60
  | _, _ => false

/-- A file of the vault (the host's `TFile`): name (basename), path,
extension, and the stat modification/creation times. -/
structure TFile where
  name : String
  path : String
  extension : String
  mtime : Int
  ctime : Int
  deriving DecidableEq, Repr

/-- Note frontmatter fields touched by the pipeline.  `none` models an
absent key; JS truthiness of a string field is `(getD "") ≠ ""`. -/
structure Frontmatter where
  post : Option String := none
  uuid : Option String := none
  updated : Option String := none
  layout : Option String := none
  name : Option String := none
  created : Option String := none
  deriving DecidableEq, Repr

/-- A markdown note: its file handle, frontmatter and raw body text. -/
structure Note where
  file : TFile
  fm : Frontmatter
  body : String
  deriving DecidableEq, Repr

/-- Substring test, modelling the `String.prototype.contains` used for
`postTag.contains("snlx.net")` (line 69). -/
def strContains (h n : String) : Bool :=
  h.data.tails.any (fun t => n.data.isPrefixOf t)

/-- Publication class of a note (spec §3); derived every run. -/
inductive NoteClass where
  | pub
  | secret
  | priv
  deriving DecidableEq, Repr

/-- Layout normalization (lines 95-99): if `frontmatter["layout"]` is
truthy leave it, else assign the default `"base.njk"`. -/
def normLayout (fm : Frontmatter) : Frontmatter :=
  if fm.layout.getD "" ≠ "" then fm else { fm with layout := some "base.njk" }

/-- The classification callback body (main.ts lines 59-100) for a single
note.  `fresh` stands for the `crypto.randomUUID()` result of this call.
Returns the mutated frontmatter and the class the note was sorted into
(pushed to `notes.pub`, `notes.secret`, or skipped as private). -/
def classifyNote (fresh : String) (n : Note) : Frontmatter × NoteClass :=
  let postTag := n.fm.post.getD ""
  let uuid := n.fm.uuid.getD ""
  if strContains postTag "snlx.net" then
    (normLayout n.fm, .pub)
  else if postTag ≠ "" then
    (normLayout { n.fm with uuid := some fresh, name := some n.file.name,
                            post := none }, .secret)
  else if uuid ≠ "" then
    (normLayout { n.fm with name := some n.file.name }, .secret)
  else
    (n.fm, .priv)

/-- The record pushed to `notes.pub` / `notes.secret`: `{file, updated,
body}` with `updated` read from the frontmatter, defaulting to
`"1970-01-01"` (lines 64-67). -/
structure FileMeta where
  file : TFile
  updated : String
  body : String
  deriving DecidableEq, Repr

/-- An entry of `notes.secretIds` (lines 76-79, 83-86). -/
structure SecretId where
  name : String
  uuid : String
  deriving DecidableEq, Repr

/-- The classification pass over the whole vault (lines 55-103): sorts
every markdown note into the `pub` / `secret` lists and collects the
`secretIds` table.  `g` supplies the `crypto.randomUUID()` value used
for a given file. -/
def classifyAll (g : TFile → String) :
    List Note → List FileMeta × List FileMeta × List SecretId
  | [] => ([], [], [])
  | n :: rest =>
    let (p, s, ids) := classifyAll g rest
    let (fm2, cls) := classifyNote (g n.file) n
    let meta : FileMeta := ⟨n.file, n.fm.updated.getD "1970-01-01", n.body⟩
    match cls with
    | .pub => (meta :: p, s, ids)
    | .secret => (p, meta :: s, ⟨n.file.name, fm2.uuid.getD ""⟩ :: ids)
    | .priv => (p, s, ids)

/-! ## Link extraction (the `regexes` of main.ts lines 129-136)

`matchAll(regexes.wikiImage)` and `matchAll(regexes.mdImage)` with
`match.last()` yield the capture-group targets of `![[target|alias]]`
and `![label](target)` embeds, in text order.  The scanners below
transcribe those two regexes for well-formed link text (`.` does not
match a newline, `(.+?)` is lazy, targets are non-empty). -/

/-- Skip `.+` up to the closing `]]` of a `(?:\|.+)?` alias part:
at least one non-newline character must precede the `]]`. -/
def wikiAliasClose : List Char → Option (List Char)
  | ']' :: ']' :: _ => none
  | '\n' :: _ => none
  | _ :: ']' :: ']' :: rest => some rest
  | _ :: rest => wikiAliasClose rest
  | [] => none

/-- Parse the inside of `[[ ... ]]`: a lazy non-empty target up to
`|` or `]]`; returns the captured target and the rest of the input. -/
def wikiTargetGo (acc : List Char) : List Char → Option (List Char × List Char)
  | ']' :: ']' :: rest => if acc.isEmpty then none else some (acc.reverse, rest)
  | '|' :: rest =>
    (if acc.isEmpty then none else
      match wikiAliasClose rest with
      | some rest2 => some (acc.reverse, rest2)
      | none => none)
  | '\n' :: _ => none
  | c :: rest => wikiTargetGo (c :: acc) rest
  | [] => none

/-- After `![`: skip the lazy `.+?]` label up to the first `](`. -/
def mdLabelClose : List Char → Option (List Char)
  | ']' :: '(' :: _ => none
  | '\n' :: _ => none
  | _ :: ']' :: '(' :: rest => some rest
  | _ :: rest => mdLabelClose rest
  | [] => none

/-- Capture the lazy non-empty `(.+?)` target up to the closing `)`. -/
def mdTargetGo (acc : List Char) : List Char → Option (List Char × List Char)
  | ')' :: rest => if acc.isEmpty then none else some (acc.reverse, rest)
  | '\n' :: _ => none
  | c :: rest => mdTargetGo (c :: acc) rest
  | [] => none

/-- All `wikiImage` targets (`/!\[\[(.+?)(?:\|.+)?\]\]/gm`), in order.
Fuel-driven scan; `fuel ≥ length` always suffices. -/
def scanWikiImages : Nat → List Char → List String
  | 0, _ => []
  | _ + 1, [] => []
  | f + 1, '!' :: '[' :: '[' :: rest =>
    (match wikiTargetGo [] rest with
     | some (t, rest2) => String.mk t :: scanWikiImages f rest2
     | none => scanWikiImages f ('[' :: '[' :: rest))
  | f + 1, _ :: rest => scanWikiImages f rest

/-- All `mdImage` targets (`/!\[.+?]\((.+?)\)/gm`), in order. -/
def scanMdImages : Nat → List Char → List String
  | 0, _ => []
  | _ + 1, [] => []
  | f + 1, '!' :: '[' :: rest =>
    (match mdLabelClose rest with
     | some afterLabel =>
       match mdTargetGo [] afterLabel with
       | some (t, rest2) => String.mk t :: scanMdImages f rest2
       | none => scanMdImages f ('[' :: rest)
     | none => scanMdImages f ('[' :: rest))
  | f + 1, _ :: rest => scanMdImages f rest

/-- `[...wikilinks, ...mdlinks].map(match => match.last())` of a note
body (lines 140-144): wiki-image targets first, then md-image targets. -/
def imageLinks (body : String) : List String :=
  scanWikiImages body.data.length body.data ++
    scanMdImages body.data.length body.data

/-- The vault as seen by the pipeline: markdown notes plus other files. -/
structure Vault where
  notes : List Note
  others : List TFile
  deriving Repr

/-- `this.app.vault.getFileByPath(link)` (line 147). -/
def getFileByPath (v : Vault) (p : String) : Option TFile :=
  (v.notes.map (·.file) ++ v.others).find? (fun f => f.path = p)

/-- The `linkTree` build (main.ts lines 137-159): for every public note,
resolve each image-link target; a markdown file becomes an edge
`(from := currentFile, for := linkedFile)`, all other resolved files are
collected into `publicAssetSet`, unresolved targets are dropped.
`linkTree` is a `Set` of fresh objects, i.e. a list — no deduplication
and, notably, no pruning pass afterwards. -/
def buildLinkTree (v : Vault) (pubs : List FileMeta) : List (TFile × TFile) :=
  pubs.flatMap (fun m =>
    (imageLinks m.body).filterMap (fun l =>
      match getFileByPath v l with
      | some lf => if lf.extension = "md" then some (m.file, lf) else none
      | none => none))

/-- The `publicAssetSet` side of the same loop (lines 154-156):
resolved non-markdown files, de-duplicated by `Set` identity. -/
def buildPublicAssets (v : Vault) (pubs : List FileMeta) : List TFile :=
  pubs.foldl (fun acc m =>
    (imageLinks m.body).foldl (fun acc2 l =>
      match getFileByPath v l with
      | some lf =>
        if lf.extension = "md" then acc2
        else if lf ∈ acc2 then acc2 else acc2 ++ [lf]
      | none => acc2) acc) []

/-! ## Secret note drafting, UUID filter and uploads -/

/-- Replace every `wikiImage` match `![[T|alias]]` by
`![T](https://api.snlx.net/file?id=T)` (main.ts lines 190-193). -/
def replaceWikiImagesGo : Nat → List Char → List Char
  | 0, cs => cs
  | _ + 1, [] => []
  | f + 1, '!' :: '[' :: '[' :: rest =>
    (match wikiTargetGo [] rest with
     | some (t, rest2) =>
       ("![".data ++ t ++ "](https://api.snlx.net/file?id=".data ++ t ++ ")".data)
         ++ replaceWikiImagesGo f rest2
     | none => '!' :: replaceWikiImagesGo f ('[' :: '[' :: rest))
  | f + 1, c :: rest => c :: replaceWikiImagesGo f rest

/-- Replace every `wiki` match `[[T|alias]]` by `[T](/T)`
(`regexes.wiki`, used at lines 165 and 194). -/
def replaceWikiGo : Nat → List Char → List Char
  | 0, cs => cs
  | _ + 1, [] => []
  | f + 1, '[' :: '[' :: rest =>
    (match wikiTargetGo [] rest with
     | some (t, rest2) =>
       ("[".data ++ t ++ "](/".data ++ t ++ ")".data) ++ replaceWikiGo f rest2
     | none => '[' :: replaceWikiGo f ('[' :: rest))
  | f + 1, c :: rest => c :: replaceWikiGo f rest

/-- `body.replace(regexes.wikiImage, "![$1](https://api.snlx.net/file?id=$1)")`. -/
def replaceWikiImages (s : String) : String :=
  String.mk (replaceWikiImagesGo s.data.length s.data)

/-- `body.replace(regexes.wiki, "[$1](/$1)")`. -/
def replaceWiki (s : String) : String :=
  String.mk (replaceWikiGo s.data.length s.data)

/-- A `secretNotes` element before the UUID filter (lines 173-200):
`uuid` is `notes.secretIds.find(candidate => candidate.name ===
file.name)?.uuid`, which is `undefined` (`none`) when the lookup
fails. -/
structure SecretDraft where
  name : String
  updated : String
  body : String
  uuid : Option String
  deriving DecidableEq, Repr

/-- Build the secret upload drafts from the classified secret list and
the `secretIds` table (lines 173-200), rewriting image embeds to the
blob-store URL and wiki links to root-relative links. -/
def mkSecretDrafts (ids : List SecretId) (secs : List FileMeta) :
    List SecretDraft :=
  secs.map (fun m =>
    { name := m.file.name
      updated := m.updated
      body := replaceWiki (replaceWikiImages m.body)
      uuid := (ids.find? (fun c => c.name = m.file.name)).map (·.uuid) })

/-- The warning `Notice` text of lines 203-207. -/
def missingUuidWarning (name : String) : String :=
  "Note without a UUID marked as secret: " ++ name ++ ", deleting it"

/-- The UUID filter over `secretNotes` (main.ts lines 201-210): drafts
whose `uuid` is `undefined` raise a warning notice and are dropped;
all others are kept.  Returns `(kept, warnings)`. -/
def filterSecret : List SecretDraft → List SecretDraft × List String
  | [] => ([], [])
  | d :: rest =>
    let (kept, warns) := filterSecret rest
    match d.uuid with
    | some _ => (d :: kept, warns)
    | none => (kept, missingUuidWarning d.name :: warns)

/-! ## The change ledger pass (main.ts lines 219-279)

The four blocks inside `processFrontMatter(bridgeSys, ...)` share one
shape: walk the candidate list in order against the mutable `store`;
an artifact whose marker compares "unchanged" is logged and mapped to
`null` (dropped by the trailing `.filter`), otherwise the store entry
is assigned the current marker and the artifact is kept. -/

/-- Generic transcription of one `map(...).filter(x => x !== null)`
ledger block, threading the mutated `store`. -/
def ledgerFilter (key : α → String) (isSame : Option MVal → α → Bool)
    (mval : α → MVal) : Store → List α → Store × List α
  | st, [] => (st, [])
  | st, a :: rest =>
    if isSame (st (key a)) a then
      ledgerFilter key isSame mval st rest
    else
      let res := ledgerFilter key isSame mval (setStore st (key a) (mval a)) rest
      (res.1, a :: res.2)

/-- An element of `publicNotes` (lines 160-169): rendered HTML plus the
wiki-rewritten body. -/
structure PubNote where
  name : String
  updated : String
  body : String
  html : String
  deriving DecidableEq, Repr

/-- Note ledger comparison `store[note.name] === note.updated`
(lines 224 and 237): strict equality against the stored value. -/
def noteSame (v : Option MVal) (updated : String) : Bool :=
  v = some (.s updated)

/-- Asset ledger comparison (lines 250-252 and 265-267):
`unixtimeCloseEnough(+store[asset.name], asset.stat.mtime)`. -/
def assetSame (v : Option MVal) (a : TFile) : Bool :=
  unixtimeCloseEnough (toNum v) (some a.mtime)

/-- The `publicNotes` ledger block (lines 222-234). -/
def ledgerPubNotes : Store → List PubNote → Store × List PubNote :=
  ledgerFilter (·.name) (fun v n => noteSame v n.updated) (fun n => .s n.updated)

/-- The `secretNotes` ledger block (lines 235-247). -/
def ledgerSecNotes : Store → List SecretDraft → Store × List SecretDraft :=
  ledgerFilter (·.name) (fun v n => noteSame v n.updated) (fun n => .s n.updated)

/-- The `publicAssets` / `secretAssets` ledger blocks (lines 248-277):
stored marker coerced with `+`, compared by `unixtimeCloseEnough`, and
advanced to `asset.stat.mtime` only for kept assets. -/
def ledgerAssets : Store → List TFile → Store × List TFile :=
  ledgerFilter (·.name) assetSame (fun a => .n a.mtime)

/-- The result of the single read-modify-write ledger pass. -/
structure LedgerResult where
  store : Store
  pubNotes : List PubNote
  secNotes : List SecretDraft
  pubAssets : List TFile
  secAssets : List TFile

/-- The whole `processFrontMatter(bridgeSys, ...)` pass (lines 219-279):
public notes, then secret notes, then public assets, then secret
assets, all against the same mutable store. -/
def ledgerPass (st : Store) (pn : List PubNote) (sn : List SecretDraft)
    (pa sa : List TFile) : LedgerResult :=
  let r1 := ledgerPubNotes st pn
  let r2 := ledgerSecNotes r1.1 sn
  let r3 := ledgerAssets r2.1 pa
  let r4 := ledgerAssets r3.1 sa
  ⟨r4.1, r1.2, r2.2, r3.2, r4.2⟩

/-! ## The public sink: `commit` (main.ts lines 425-506)

GitHub's state is modelled content-addressed: creating a blob records
its content; tree and commit SHAs are generated from creation counters.
`readBin64` stands for `Buffer.from(await readBinary(asset))
.toString("base64")`.  `blobFails` injects per-content failures of the
`POST git/blobs` requests: `Promise.all` starts every request, so each
successful blob is created even when a sibling request fails, and the
first rejection aborts the rest of `commit`. -/

/-- Split a character list at the first occurrence of a (non-empty)
pattern: `some (pre, post)` with the input equal to
`pre ++ pat ++ post`.  Fuel-driven; `fuel ≥ length` suffices. -/
def splitFirstGo (pat : List Char) : Nat → List Char → Option (List Char × List Char)
  | 0, _ => none
  | _ + 1, [] => none
  | f + 1, c :: rest =>
    if pat.isPrefixOf (c :: rest) then some ([], (c :: rest).drop pat.length)
    else
      match splitFirstGo pat f rest with
      | some (pre, post) => some (c :: pre, post)
      | none => none

/-- JS `String.prototype.replace` with a plain-string pattern replaces
only the first occurrence (used for `file.name.replace(".md", ".html")`
at line 449 and `HTML_TEMPLATE.replace("CONTENT", html)` at line 410);
a string without the pattern is returned unchanged. -/
def replaceFirst (s pat rep : String) : String :=
  match splitFirstGo pat.data s.data.length s.data with
  | some (pre, post) => String.mk (pre ++ rep.data ++ post)
  | none => s

/-- One entry of the `POST git/trees` payload (lines 448-453, 470-475). -/
structure TreeEntry where
  path : String
  mode : String
  type : String
  sha : String
  deriving DecidableEq, Repr

/-- A created tree: its `base_tree` and the layered entries. -/
structure TreeReq where
  baseTree : String
  entries : List TreeEntry
  deriving DecidableEq, Repr

/-- A created commit object (lines 490-498). -/
structure CommitObj where
  message : String
  tree : String
  parents : List String
  deriving DecidableEq, Repr

/-- Remote repository state: uploaded blob contents, created trees and
commits, the `main` branch head SHA and its tree SHA. -/
structure RemoteRepo where
  blobs : List String
  trees : List TreeReq
  commits : List CommitObj
  branchMain : String
  headTree : String
  deriving DecidableEq, Repr

/-- Content-addressed SHA of a created blob. -/
def blobSha (content : String) : String := "blobsha:" ++ content

/-- The `commit` method (lines 425-506).  Returns the new remote state
and whether the method ran to completion (`false` models the rejection
of `Promise.all(treePromises)` propagating out of `commit`, in which
case `POST git/trees`, `POST git/commits` and `PATCH git/refs` never
run). -/
def commitRun (blobFails : String → Bool) (readBin64 : TFile → String)
    (repo : RemoteRepo) (files : List PubNote) (assets : List TFile) :
    RemoteRepo × Bool :=
  let lastCommitSha := repo.branchMain
  let baseTreeSha := repo.headTree
  let reqs := files.map (·.html) ++ assets.map readBin64
  let repo1 := { repo with blobs := repo.blobs ++ reqs.filter (fun c => !blobFails c) }
  if reqs.any blobFails then
    (repo1, false)
  else
    let entries :=
      files.map (fun f =>
        TreeEntry.mk (replaceFirst f.name ".md" ".html") "100644" "blob"
          (blobSha f.html)) ++
      assets.map (fun a => TreeEntry.mk a.name "100644" "blob" (blobSha (readBin64 a)))
    let treeSha := "treesha:" ++ toString repo1.trees.length
    let repo2 := { repo1 with trees := repo1.trees ++ [TreeReq.mk baseTreeSha entries] }
    let commitSha := "commitsha:" ++ toString repo2.commits.length
    let repo3 := { repo2 with
      commits := repo2.commits ++
        [CommitObj.mk "bridge: publish the updates" treeSha [lastCommitSha]] }
    ({ repo3 with branchMain := commitSha, headTree := treeSha }, true)

/-! ## The secret sink: `uploadSecret` (lines 508-520) -/

/-- The upload requests issued by `uploadSecret`: notes are addressed by
their `uuid`, assets by their filename; `readBin` stands for
`vault.readBinary`. -/
def uploadSecretReqs (readBin : TFile → String) (files : List SecretDraft)
    (assets : List TFile) : List (String × String) :=
  files.map (fun f => (f.uuid.getD "", f.body)) ++
    assets.map (fun a => (a.name, readBin a))

/-! ## Sink invocation (main.ts lines 281-306) -/

/-- The joined `"- name"` message list for the public batch
(lines 281-284). -/
def pubMessage (pn : List PubNote) (pa : List TFile) : String :=
  String.intercalate "\n"
    (pn.map (fun n => "- " ++ n.name) ++ pa.map (fun a => "- " ++ a.name))

/-- The joined `"- name"` message list for the secret batch
(lines 293-296). -/
def secMessage (sn : List SecretDraft) (sa : List TFile) : String :=
  String.intercalate "\n"
    (sn.map (fun n => "- " ++ n.name) ++ sa.map (fun a => "- " ++ a.name))

/-- Observable outcome of the sink-invocation block: notices raised,
final remote state, which sinks were reached, the secret uploads
issued, and whether the command callback ran to completion (an
uncaught rejection makes `completed = false`). -/
structure SinkTrace where
  notices : List String
  repo : RemoteRepo
  commitAttempted : Bool
  secretAttempted : Bool
  secretUploads : List (String × String)
  completed : Bool

/-- The secret half of the block (lines 293-306): the `uploadSecret`
rejection (`uploadFail = some err`) is caught by `.catch`, reported as
`"Failed" + err`, and the block still finishes. -/
def secretPhase (notices0 : List String) (repo : RemoteRepo) (commAtt : Bool)
    (uploadFail : Option String) (readBin : TFile → String)
    (sn : List SecretDraft) (sa : List TFile) : SinkTrace :=
  let msg := secMessage sn sa
  if msg = "" then
    ⟨notices0 ++ ["No secret notes were updated"], repo, commAtt, false, [], true⟩
  else
    let failNotices := match uploadFail with
      | some e => ["Failed" ++ e]
      | none => []
    ⟨notices0 ++ ["Secret notes:\n" ++ msg, "Uploading to api.snlx.net"] ++
        failNotices ++ ["Secret notes uploaded"],
      repo, commAtt, true, uploadSecretReqs readBin sn sa, true⟩

/-- The whole sink-invocation block (lines 281-306).  `await
this.commit(...)` is not wrapped in any try/catch: when `commitRun`
reports failure the rejection propagates out of the command callback
and nothing after it runs. -/
def runSinks (blobFails : String → Bool) (readBin64 readBin : TFile → String)
    (uploadFail : Option String) (repo : RemoteRepo) (pn : List PubNote)
    (sn : List SecretDraft) (pa sa : List TFile) : SinkTrace :=
  let msg := pubMessage pn pa
  if msg = "" then
    secretPhase ["No public notes were updated"] repo false uploadFail readBin sn sa
  else
    let res := commitRun blobFails readBin64 repo pn pa
    if res.2 then
      secretPhase
        ["Public notes:\n" ++ msg, "Uploading to GitHub", "Public notes uploaded"]
        res.1 true uploadFail readBin sn sa
    else
      ⟨["Public notes:\n" ++ msg, "Uploading to GitHub"], res.1, true, false, [], false⟩

/-- Ledger pass followed by the sinks, as ordered in the command
callback: the `bridge-sys.md` store is read-modify-written (and thus
persisted) before either sink issues a request, so the resulting store
is whatever the ledger pass produced, independent of sink outcomes. -/
def publishRun (blobFails : String → Bool) (readBin64 readBin : TFile → String)
    (uploadFail : Option String) (repo : RemoteRepo) (st : Store)
    (pn : List PubNote) (sn : List SecretDraft) (pa sa : List TFile) :
    LedgerResult × SinkTrace :=
  let r := ledgerPass st pn sn pa sa
  (r, runSinks blobFails readBin64 readBin uploadFail repo
        r.pubNotes r.secNotes r.pubAssets r.secAssets)

/-! ## The HTML renderer: `fillTemplate` (main.ts lines 21-33, 350-411)

DOM nodes are modelled structurally; content assigned through
`innerHTML` and later re-serialized is modelled as the parsed node list
(for opaque markup, a raw `text` node).  `MarkdownRenderer.render` is
the host collaborator: `toHTML` passes its output into `fillTemplate`,
so the theorems take the parsed rendered content as input. -/

/-- The fixed page shell `HTML_TEMPLATE` (main.ts lines 21-33). -/
def HTML_TEMPLATE : String :=
  "<!doctype html>\n<html>\n\t<head>\n\t\t<title>bridge wip</title>\n\t\t<link rel=\"stylesheet\" href=\"https://snlx.net/new.css\">\n\t</head>\n\t<body>\n\t\tCONTENT\n\t\t<!-- TODO router.js -->\n\t\t<!-- TODO include typ.js everywhere so it's downloaded in the bg & cached -->\n\t</body>\n</html>\n"

/-- A DOM node: an element with ordered attributes and children, or
raw text/markup. -/
inductive Dom where
  | el (tag : String) (attrs : List (String × String)) (children : List Dom)
  | text (s : String)
  deriving Repr

/-- Serialize an attribute list as ` key="value"` pairs. -/
def serializeAttrs : List (String × String) → String
  | [] => ""
  | (k, v) :: rest => " " ++ k ++ "=\"" ++ v ++ "\"" ++ serializeAttrs rest

mutual

/-- `outerHTML` of a node. -/
def serializeDom : Dom → String
  | .text s => s
  | .el tag attrs children =>
    "<" ++ tag ++ serializeAttrs attrs ++ ">" ++ serializeList children ++
      "</" ++ tag ++ ">"

/-- Concatenated serialization of a node list (an `innerHTML`). -/
def serializeList : List Dom → String
  | [] => ""
  | d :: ds => serializeDom d ++ serializeList ds

end

mutual

/-- `root.querySelectorAll("a").forEach(a => { removeAttribute("target");
removeAttribute("rel") })` (lines 400-403). -/
def stripAnchorAttrs : Dom → Dom
  | .text s => .text s
  | .el tag attrs children =>
    .el tag
      (if tag = "a" then
        attrs.filter (fun p => !(p.1 == "target" || p.1 == "rel"))
      else attrs)
      (stripAnchorList children)

/-- `stripAnchorAttrs` mapped over a node list. -/
def stripAnchorList : List Dom → List Dom
  | [] => []
  | d :: ds => stripAnchorAttrs d :: stripAnchorList ds

end

/-- The `source.innerHTML` SVG markup string (line 383). -/
def svgSource : String :=
  "<svg xmlns=\"http://www.w3.org/2000/svg\" width=\"24\" height=\"24\" viewBox=\"0 0 24 24\" fill=\"none\" stroke=\"currentColor\" stroke-width=\"2\" stroke-linecap=\"round\" stroke-linejoin=\"round\" class=\"lucide lucide-github-icon lucide-github\"><path d=\"M15 22v-4a4.8 4.8 0 0 0-1-3.5c3 0 6-2 6-5.5.08-1.25-.27-2.48-1-3.5.28-1.15.28-2.35 0-3.5 0 0-1 0-3 1.5-2.64-.5-5.36-.5-8 0C6 2 5 2 5 2c-.3 1.15-.3 2.35 0 3.5A5.403 5.403 0 0 0 4 9c0 3.5 3 5.5 6 5.5-.39.49-.68 1.05-.85 1.65-.17.6-.22 1.23-.15 1.85v4\"/><path d=\"M9 18c-4.51 2-5-2-7-2\"/></svg>Source&nbsp;code"

/-- The `backLinks` array (line 369): declared empty, never filled. -/
def backLinks : List String := []

/-- The `forwardLinks` array (line 370): declared empty, never filled. -/
def forwardLinks : List String := []

/-- `mkLink` (lines 387-395): an `li` of the given class wrapping an
anchor to `"/" + note` with the note as its text. -/
def mkLinkLi (note className : String) : Dom :=
  .el "li" [("class", className)]
    [.el "a" [("href", "/" ++ note)] [.text note]]

/-- The `ul` items appended by lines 377-379: back-links, the `current`
self entry, forward-links. -/
def navUlItems (path : String) : List Dom :=
  backLinks.map (fun note => mkLinkLi note "back") ++
    [mkLinkLi path "current"] ++
    forwardLinks.map (fun note => mkLinkLi note "forward")

/-- The `nav` element (lines 372-385): the `h2` heading from
`innerHTML`, the `ul` of links, then the source-code anchor. -/
def navDom (path : String) : Dom :=
  .el "nav" []
    [.el "h2" [] [.text "Linked Notes"],
     .el "ul" [] (navUlItems path),
     .el "a" [("class", "source"), ("href", "https://github.com/snlxnet/snlx.net")]
       [.text svgSource]]

/-- The assembled `body` root after the anchor-attribute strip
(lines 368-403): `nav` then `main` holding the rendered content. -/
def fillTemplateDoc (path : String) (content : List Dom) : Dom :=
  stripAnchorAttrs (.el "body" [] [navDom path, .el "main" [] content])

/-! ### The `app://` URL rewrite (lines 405-408)

`root.innerHTML.replace(/"app:\/\/[^"]+\/(.+?)(\?.+?)?"/gm, '"$1"')`,
transcribed as a left-to-right scan for well-formed matches. -/

/-- Split a character run at its last `/`; fails when no `/` is
present or nothing precedes it (the greedy `[^"]+` needs a character). -/
def splitAtLastSlash (cs : List Char) : Option (List Char × List Char) :=
  let tailRev := cs.reverse.takeWhile (fun c => c ≠ '/')
  if tailRev.length = cs.length then none
  else
    let before := cs.take (cs.length - tailRev.length - 1)
    if before.isEmpty then none else some (before, tailRev.reverse)

/-- The lazy `(.+?)(\?.+?)?` capture over the final path segment:
stops before the first `?` that has at least one character after it. -/
def captureGo (acc : List Char) : List Char → List Char
  | [] => acc.reverse
  | '?' :: c :: rest2 =>
    if acc.isEmpty then captureGo ('?' :: acc) (c :: rest2) else acc.reverse
  | c :: rest2 => captureGo (c :: acc) rest2

/-- Match `[^"]+\/(.+?)(\?.+?)?"` right after a `"app://` prefix:
returns the `$1` capture and the input after the closing quote. -/
def appUrlTail (rest : List Char) : Option (List Char × List Char) :=
  let run := rest.takeWhile (fun c => c ≠ '"')
  match rest.drop run.length with
  | '"' :: after2 =>
    if '\n' ∈ run then none
    else
      match splitAtLastSlash run with
      | some (_, tail) =>
        if tail.isEmpty then none else some (captureGo [] tail, after2)
      | none => none
  | _ => none

/-- Try the full regex at the current position: a `"` followed by the
literal `app://`, then `appUrlTail`; yields the `"$1"` replacement text
and the rest of the input. -/
def tryMatchApp (cs : List Char) : Option (List Char × List Char) :=
  match cs with
  | [] => none
  | c :: rest =>
    if c = '"' then
      if "app://".data.isPrefixOf rest then
        match appUrlTail (rest.drop 6) with
        | some (capture, after) => some ('"' :: (capture ++ ['"']), after)
        | none => none
      else none
    else none

/-- Fuel-driven global replace of the `app://` pattern. -/
def rewriteAppGo : Nat → List Char → List Char
  | 0, cs => cs
  | _ + 1, [] => []
  | f + 1, c :: cs =>
    match tryMatchApp (c :: cs) with
    | some (rep, rest) => rep ++ rewriteAppGo f rest
    | none => c :: rewriteAppGo f cs

/-- The `.replace(/"app:\/\/.../gm, '"$1"')` post-processing step. -/
def rewriteAppUrls (s : String) : String :=
  String.mk (rewriteAppGo s.data.length s.data)

/-- `innerHTML`: serialization of a node's children. -/
def serializeInner : Dom → String
  | .el _ _ children => serializeList children
  | .text s => s

/-- The html string substituted for `CONTENT` (lines 405-410):
`root.innerHTML` after the anchor strip, post-processed by the
`app://` rewrite. -/
def filledBody (path : String) (content : List Dom) : String :=
  rewriteAppUrls (serializeInner (fillTemplateDoc path content))

/-- `fillTemplate` (lines 367-411): wrap the processed html in the page
shell (`String.replace` substitutes the first `CONTENT` occurrence). -/
def fillTemplate (path : String) (content : List Dom) : String :=
  replaceFirst HTML_TEMPLATE "CONTENT" (filledBody path content)

/-! ## Observers used by the theorems -/

/-- Substring containment of `n` in `h` (as a proposition). -/
def containsStr (h n : String) : Prop := n.data <:+: h.data

/-- Quote-safety scanner with carry: `p` records whether the previous
character was a `"`.  `quoteSeg p cs` holds when no `"` inside `cs` is
immediately followed by an `a` — a sufficient condition for the
`app://` rewrite to leave the text untouched, since a match must start
with the literal `"app://`. -/
def quoteSeg (p : Bool) : List Char → Bool
  | [] => true
  | c :: rest => (if p then !(c == 'a') else true) && quoteSeg (c == '"') rest

/-- The carry out of a scanned segment: whether its last character
(or, for an empty segment, the carry in) is a `"`. -/
def quoteCarry (p : Bool) : List Char → Bool
  | [] => p
  | c :: rest => quoteCarry (c == '"') rest

mutual

/-- Find the first `ul` element in a document (depth-first). -/
def findUl : Dom → Option (List Dom)
  | .text _ => none
  | .el tag _ children =>
    if tag = "ul" then some children else findUlList children

/-- `findUl` over a node list. -/
def findUlList : List Dom → Option (List Dom)
  | [] => none
  | d :: ds =>
    match findUl d with
    | some r => some r
    | none => findUlList ds

end

/-- Read a navigation entry off an `li` node: its `class` attribute and
the text of the anchor it wraps. -/
def liEntry : Dom → Option (String × String)
  | .el "li" attrs [Dom.el "a" _ [Dom.text t]] =>
    some ((((attrs.find? (fun p => p.1 = "class")).map (·.2)).getD ""), t)
  | _ => none

/-- The navigation list of a rendered document: the entries of its
first `ul`. -/
def navEntriesOf (doc : Dom) : List (String × String) :=
  ((findUl doc).getD []).filterMap liEntry

/-- Modelled from the spec: the back-link entries C9 expects in a
note's navigation list — the edges of the link graph targeting the
note, each resolved to a display name (missing from `fillTemplate`,
whose `backLinks` array is never populated). -/
def backEntriesSpec (tree : List (TFile × TFile)) (f : TFile) :
    List (String × String) :=
  (tree.filter (fun e => e.2 = f)).map (fun e => ("back", e.1.name))

/-- Modelled from the spec: the forward-link entries C9 expects — the
edges of the link graph sourced at the note. -/
def forwardEntriesSpec (tree : List (TFile × TFile)) (f : TFile) :
    List (String × String) :=
  (tree.filter (fun e => e.1 = f)).map (fun e => ("forward", e.2.name))

/-! # Theorems -/

/-! ## Generic properties of the ledger filter -/

theorem ledgerFilter_subset {α : Type} (key : α → String)
    (isSame : Option MVal → α → Bool) (mval : α → MVal) (st : Store)
    (l : List α) : ∀ x ∈ (ledgerFilter key isSame mval st l).2, x ∈ l := by
  induction l generalizing st with
  | nil => intro x hx; simp [ledgerFilter] at hx
  | cons a rest ih =>
    intro x hx
    by_cases h : isSame (st (key a)) a
    · simp only [ledgerFilter, if_pos h] at hx
      exact List.mem_cons_of_mem _ (ih st x hx)
    · simp only [ledgerFilter, if_neg h] at hx
      rcases List.mem_cons.mp hx with h1 | h2
      · exact h1 ▸ List.mem_cons_self _ _
      · exact List.mem_cons_of_mem _ (ih _ x h2)

theorem ledgerFilter_store_other {α : Type} (key : α → String)
    (isSame : Option MVal → α → Bool) (mval : α → MVal) (st : Store)
    (l : List α) (k : String) (hk : ∀ a ∈ l, key a ≠ k) :
    (ledgerFilter key isSame mval st l).1 k = st k := by
  induction l generalizing st with
  | nil => simp [ledgerFilter]
  | cons a rest ih =>
    by_cases h : isSame (st (key a)) a
    · simp only [ledgerFilter, if_pos h]
      exact ih st (fun b hb => hk b (List.mem_cons_of_mem _ hb))
    · simp only [ledgerFilter, if_neg h]
      rw [ih _ (fun b hb => hk b (List.mem_cons_of_mem _ hb))]
      have hkk : k ≠ key a := fun hc => (hk a (List.mem_cons_self _ _)) hc.symm
      simp [setStore, hkk]

theorem ledgerFilter_mem_iff {α : Type} (key : α → String)
    (isSame : Option MVal → α → Bool) (mval : α → MVal) (st : Store)
    (l : List α) (a : α) (hnd : (l.map key).Nodup) (ha : a ∈ l) :
    a ∈ (ledgerFilter key isSame mval st l).2 ↔ isSame (st (key a)) a = false := by
  induction l generalizing st with
  | nil => cases ha
  | cons b rest ih =>
    have hnd2 : (rest.map key).Nodup := (List.nodup_cons.mp hnd).2
    have hb : key b ∉ rest.map key := (List.nodup_cons.mp hnd).1
    rcases List.mem_cons.mp ha with rfl | hmem
    · by_cases h : isSame (st (key a)) a
      · simp only [ledgerFilter, if_pos h]
        constructor
        · intro hx
          exact absurd (List.mem_map_of_mem key
            (ledgerFilter_subset key isSame mval st rest a hx)) hb
        · intro hf; rw [h] at hf; cases hf
      · simp only [ledgerFilter, if_neg h]
        simp [Bool.eq_false_iff.mpr h]
    · have hne : key a ≠ key b := by
        intro hc
        exact hb (hc ▸ List.mem_map_of_mem key hmem)
      by_cases h : isSame (st (key b)) b
      · simp only [ledgerFilter, if_pos h]
        exact ih st hnd2 hmem
      · simp only [ledgerFilter, if_neg h]
        have hst : (setStore st (key b) (mval b)) (key a) = st (key a) := by
          simp [setStore, hne]
        have hiff := ih (setStore st (key b) (mval b)) hnd2 hmem
        rw [hst] at hiff
        constructor
        · intro hx
          rcases List.mem_cons.mp hx with rfl | h2
          · exact absurd rfl hne
          · exact hiff.mp h2
        · intro hf
          exact List.mem_cons_of_mem _ (hiff.mpr hf)

theorem ledgerFilter_store_mem {α : Type} (key : α → String)
    (isSame : Option MVal → α → Bool) (mval : α → MVal) (st : Store)
    (l : List α) (a : α) (hnd : (l.map key).Nodup) (ha : a ∈ l) :
    (ledgerFilter key isSame mval st l).1 (key a) =
      if isSame (st (key a)) a then st (key a) else some (mval a) := by
  induction l generalizing st with
  | nil => cases ha
  | cons b rest ih =>
    have hnd2 : (rest.map key).Nodup := (List.nodup_cons.mp hnd).2
    have hb : key b ∉ rest.map key := (List.nodup_cons.mp hnd).1
    rcases List.mem_cons.mp ha with rfl | hmem
    · have hother : ∀ x ∈ rest, key x ≠ key a := by
        intro x hx hc
        exact hb (hc ▸ List.mem_map_of_mem key hx)
      by_cases h : isSame (st (key a)) a
      · simp only [ledgerFilter, if_pos h, if_pos h]
        exact ledgerFilter_store_other key isSame mval st rest (key a) hother
      · simp only [ledgerFilter, if_neg h, if_neg h]
        rw [ledgerFilter_store_other key isSame mval _ rest (key a) hother]
        simp [setStore]
    · have hne : key a ≠ key b := by
        intro hc
        exact hb (hc ▸ List.mem_map_of_mem key hmem)
      by_cases h : isSame (st (key b)) b
      · simp only [ledgerFilter, if_pos h]
        exact ih st hnd2 hmem
      · simp only [ledgerFilter, if_neg h]
        have hst : (setStore st (key b) (mval b)) (key a) = st (key a) := by
          simp [setStore, hne]
        rw [ih _ hnd2 hmem, hst]

theorem ledgerFilter_id {α : Type} (key : α → String)
    (isSame : Option MVal → α → Bool) (mval : α → MVal) (st : Store)
    (l : List α) (h : ∀ a ∈ l, isSame (st (key a)) a = true) :
    ledgerFilter key isSame mval st l = (st, []) := by
  induction l with
  | nil => rfl
  | cons a rest ih =>
    have ha := h a (List.mem_cons_self _ _)
    simp only [ledgerFilter, if_pos ha]
    exact ih (fun b hb => h b (List.mem_cons_of_mem _ hb))

theorem noteSame_true_iff (v : Option MVal) (u : String) :
    noteSame v u = true ↔ v = some (.s u) := by simp [noteSame]

theorem noteSame_false_iff (v : Option MVal) (u : String) :
    noteSame v u = false ↔ v ≠ some (.s u) := by simp [noteSame]

/-- Split the combined name-uniqueness hypothesis of the ledger pass. -/
theorem ledgerNames_parts {pn : List PubNote} {sn : List SecretDraft}
    {pa sa : List TFile}
    (hnd : (pn.map (·.name) ++ sn.map (·.name) ++ pa.map (·.name) ++
      sa.map (·.name)).Nodup) :
    (pn.map (·.name)).Nodup ∧ (sn.map (·.name)).Nodup ∧
    (pa.map (·.name)).Nodup ∧ (sa.map (·.name)).Nodup ∧
    (pn.map (·.name)).Disjoint (sn.map (·.name) ++ (pa.map (·.name) ++
      sa.map (·.name))) ∧
    (sn.map (·.name)).Disjoint (pa.map (·.name) ++ sa.map (·.name)) ∧
    (pa.map (·.name)).Disjoint (sa.map (·.name)) := by
  simp only [List.append_assoc] at hnd
  rw [List.nodup_append] at hnd
  obtain ⟨h1, h2, hd1⟩ := hnd
  rw [List.nodup_append] at h2
  obtain ⟨h3, h4, hd2⟩ := h2
  rw [List.nodup_append] at h4
  obtain ⟨h5, h6, hd3⟩ := h4
  exact ⟨h1, h3, h5, h6, hd1, hd2, hd3⟩

/-- Ledger-pass facts for a public note: its marker ends at the current
`updated` value, and it is kept iff the stored marker differed. -/
theorem ledgerPass_pubNote_spec (st : Store) (pn : List PubNote)
    (sn : List SecretDraft) (pa sa : List TFile)
    (hnd : (pn.map (·.name) ++ sn.map (·.name) ++ pa.map (·.name) ++
      sa.map (·.name)).Nodup) (n : PubNote) (hn : n ∈ pn) :
    (ledgerPass st pn sn pa sa).store n.name = some (.s n.updated) ∧
    (n ∈ (ledgerPass st pn sn pa sa).pubNotes ↔
      st n.name ≠ some (.s n.updated)) := by
  obtain ⟨h1, h3, h5, h6, hd1, hd2, hd3⟩ := ledgerNames_parts hnd
  have hnameA : n.name ∈ pn.map (·.name) := List.mem_map_of_mem _ hn
  have hkB : ∀ x ∈ sn, x.name ≠ n.name := fun x hx hc =>
    hd1 hnameA (List.mem_append_left _ (hc ▸ List.mem_map_of_mem (·.name) hx))
  have hkC : ∀ x ∈ pa, x.name ≠ n.name := fun x hx hc =>
    hd1 hnameA (List.mem_append_right _
      (List.mem_append_left _ (hc ▸ List.mem_map_of_mem (·.name) hx)))
  have hkD : ∀ x ∈ sa, x.name ≠ n.name := fun x hx hc =>
    hd1 hnameA (List.mem_append_right _
      (List.mem_append_right _ (hc ▸ List.mem_map_of_mem (·.name) hx)))
  simp only [ledgerPass, ledgerPubNotes, ledgerSecNotes, ledgerAssets]
  constructor
  · rw [ledgerFilter_store_other _ _ _ _ sa n.name hkD,
      ledgerFilter_store_other _ _ _ _ pa n.name hkC,
      ledgerFilter_store_other _ _ _ _ sn n.name hkB,
      ledgerFilter_store_mem _ _ _ st pn n h1 hn]
    by_cases h : noteSame (st n.name) n.updated
    · rw [if_pos h]; exact (noteSame_true_iff _ _).mp h
    · rw [if_neg h]
  · exact (ledgerFilter_mem_iff _ _ _ st pn n h1 hn).trans
      (noteSame_false_iff _ _)

/-- Ledger-pass facts for a secret note. -/
theorem ledgerPass_secNote_spec (st : Store) (pn : List PubNote)
    (sn : List SecretDraft) (pa sa : List TFile)
    (hnd : (pn.map (·.name) ++ sn.map (·.name) ++ pa.map (·.name) ++
      sa.map (·.name)).Nodup) (n : SecretDraft) (hn : n ∈ sn) :
    (ledgerPass st pn sn pa sa).store n.name = some (.s n.updated) ∧
    (n ∈ (ledgerPass st pn sn pa sa).secNotes ↔
      st n.name ≠ some (.s n.updated)) := by
  obtain ⟨h1, h3, h5, h6, hd1, hd2, hd3⟩ := ledgerNames_parts hnd
  have hnameB : n.name ∈ sn.map (·.name) := List.mem_map_of_mem _ hn
  have hkA : ∀ x ∈ pn, x.name ≠ n.name := fun x hx hc =>
    hd1 (hc ▸ List.mem_map_of_mem (·.name) hx) (List.mem_append_left _ hnameB)
  have hkC : ∀ x ∈ pa, x.name ≠ n.name := fun x hx hc =>
    hd2 hnameB (List.mem_append_left _ (hc ▸ List.mem_map_of_mem (·.name) hx))
  have hkD : ∀ x ∈ sa, x.name ≠ n.name := fun x hx hc =>
    hd2 hnameB (List.mem_append_right _ (hc ▸ List.mem_map_of_mem (·.name) hx))
  simp only [ledgerPass, ledgerPubNotes, ledgerSecNotes, ledgerAssets]
  have hframe1 : (ledgerFilter (fun x => x.name)
      (fun v x => noteSame v x.updated) (fun x => MVal.s x.updated) st pn).1
        n.name = st n.name :=
    ledgerFilter_store_other _ _ _ st pn n.name hkA
  constructor
  · rw [ledgerFilter_store_other _ _ _ _ sa n.name hkD,
      ledgerFilter_store_other _ _ _ _ pa n.name hkC,
      ledgerFilter_store_mem _ _ _ _ sn n h3 hn, hframe1]
    by_cases h : noteSame (st n.name) n.updated
    · rw [if_pos h]; exact (noteSame_true_iff _ _).mp h
    · rw [if_neg h]
  · have hiff := ledgerFilter_mem_iff (fun x : SecretDraft => x.name)
      (fun v x => noteSame v x.updated) (fun x => MVal.s x.updated)
      (ledgerFilter (fun x => x.name) (fun v x => noteSame v x.updated)
        (fun x => MVal.s x.updated) st pn).1 sn n h3 hn
    rw [hframe1] at hiff
    exact hiff.trans (noteSame_false_iff _ _)

/-- Ledger-pass facts for a public asset: kept iff the tolerance test
failed; the marker is advanced only for kept assets. -/
theorem ledgerPass_pubAsset_spec (st : Store) (pn : List PubNote)
    (sn : List SecretDraft) (pa sa : List TFile)
    (hnd : (pn.map (·.name) ++ sn.map (·.name) ++ pa.map (·.name) ++
      sa.map (·.name)).Nodup) (a : TFile) (ha : a ∈ pa) :
    (a ∈ (ledgerPass st pn sn pa sa).pubAssets ↔
      assetSame (st a.name) a = false) ∧
    (ledgerPass st pn sn pa sa).store a.name =
      (if assetSame (st a.name) a then st a.name else some (.n a.mtime)) := by
  obtain ⟨h1, h3, h5, h6, hd1, hd2, hd3⟩ := ledgerNames_parts hnd
  have hnameC : a.name ∈ pa.map (·.name) := List.mem_map_of_mem _ ha
  have hkA : ∀ x ∈ pn, x.name ≠ a.name := fun x hx hc =>
    hd1 (hc ▸ List.mem_map_of_mem (·.name) hx)
      (List.mem_append_right _ (List.mem_append_left _ hnameC))
  have hkB : ∀ x ∈ sn, x.name ≠ a.name := fun x hx hc =>
    hd2 (hc ▸ List.mem_map_of_mem (·.name) hx) (List.mem_append_left _ hnameC)
  have hkD : ∀ x ∈ sa, x.name ≠ a.name := fun x hx hc =>
    hd3 hnameC (hc ▸ List.mem_map_of_mem (·.name) hx)
  simp only [ledgerPass, ledgerPubNotes, ledgerSecNotes, ledgerAssets]
  have hframe1 : (ledgerFilter (fun x => x.name)
      (fun v x => noteSame v x.updated) (fun x => MVal.s x.updated) st pn).1
        a.name = st a.name :=
    ledgerFilter_store_other _ _ _ st pn a.name hkA
  have hframe2 : (ledgerFilter (fun x : SecretDraft => x.name)
      (fun v x => noteSame v x.updated) (fun x => MVal.s x.updated)
      (ledgerFilter (fun x => x.name) (fun v x => noteSame v x.updated)
        (fun x => MVal.s x.updated) st pn).1 sn).1 a.name = st a.name := by
    rw [ledgerFilter_store_other _ _ _ _ sn a.name hkB, hframe1]
  constructor
  · have hiff := ledgerFilter_mem_iff (fun x : TFile => x.name) assetSame
      (fun x => MVal.n x.mtime)
      (ledgerFilter (fun x : SecretDraft => x.name)
        (fun v x => noteSame v x.updated) (fun x => MVal.s x.updated)
        (ledgerFilter (fun x => x.name) (fun v x => noteSame v x.updated)
          (fun x => MVal.s x.updated) st pn).1 sn).1 pa a h5 ha
    rw [hframe2] at hiff
    exact hiff
  · rw [ledgerFilter_store_other _ _ _ _ sa a.name hkD,
      ledgerFilter_store_mem _ _ _ _ pa a h5 ha, hframe2]

/-- Ledger-pass facts for a secret asset. -/
theorem ledgerPass_secAsset_spec (st : Store) (pn : List PubNote)
    (sn : List SecretDraft) (pa sa : List TFile)
    (hnd : (pn.map (·.name) ++ sn.map (·.name) ++ pa.map (·.name) ++
      sa.map (·.name)).Nodup) (a : TFile) (ha : a ∈ sa) :
    (a ∈ (ledgerPass st pn sn pa sa).secAssets ↔
      assetSame (st a.name) a = false) ∧
    (ledgerPass st pn sn pa sa).store a.name =
      (if assetSame (st a.name) a then st a.name else some (.n a.mtime)) := by
  obtain ⟨h1, h3, h5, h6, hd1, hd2, hd3⟩ := ledgerNames_parts hnd
  have hnameD : a.name ∈ sa.map (·.name) := List.mem_map_of_mem _ ha
  have hkA : ∀ x ∈ pn, x.name ≠ a.name := fun x hx hc =>
    hd1 (hc ▸ List.mem_map_of_mem (·.name) hx)
      (List.mem_append_right _ (List.mem_append_right _ hnameD))
  have hkB : ∀ x ∈ sn, x.name ≠ a.name := fun x hx hc =>
    hd2 (hc ▸ List.mem_map_of_mem (·.name) hx) (List.mem_append_right _ hnameD)
  have hkC : ∀ x ∈ pa, x.name ≠ a.name := fun x hx hc =>
    hd3 (hc ▸ List.mem_map_of_mem (·.name) hx) hnameD
  simp only [ledgerPass, ledgerPubNotes, ledgerSecNotes, ledgerAssets]
  have hframe3 : (ledgerFilter (fun x : TFile => x.name) assetSame
      (fun x => MVal.n x.mtime)
      (ledgerFilter (fun x : SecretDraft => x.name)
        (fun v x => noteSame v x.updated) (fun x => MVal.s x.updated)
        (ledgerFilter (fun x => x.name) (fun v x => noteSame v x.updated)
          (fun x => MVal.s x.updated) st pn).1 sn).1 pa).1 a.name =
      st a.name := by
    rw [ledgerFilter_store_other _ _ _ _ pa a.name hkC,
      ledgerFilter_store_other _ _ _ _ sn a.name hkB,
      ledgerFilter_store_other _ _ _ _ pn a.name hkA]
  constructor
  · have hiff := ledgerFilter_mem_iff (fun x : TFile => x.name) assetSame
      (fun x => MVal.n x.mtime)
      (ledgerFilter (fun x : TFile => x.name) assetSame
        (fun x => MVal.n x.mtime)
        (ledgerFilter (fun x : SecretDraft => x.name)
          (fun v x => noteSame v x.updated) (fun x => MVal.s x.updated)
          (ledgerFilter (fun x => x.name) (fun v x => noteSame v x.updated)
            (fun x => MVal.s x.updated) st pn).1 sn).1 pa).1 sa a h6 ha
    rw [hframe3] at hiff
    exact hiff
  · rw [ledgerFilter_store_mem _ _ _ _ sa a h6 ha, hframe3]

/-- C1: in the ledger pass over an asset candidate list, the stored
numeric marker is compared to the asset's current mtime by
`unixtimeCloseEnough`: an absolute difference strictly below `15 * 60`
reports the asset unchanged and drops it from the upload batch, while a
difference of `15 * 60` or more reports it changed and keeps it. -/
theorem C1_asset_tolerance_window (st : Store) (assets : List TFile)
    (a : TFile) (s : Int) (hnd : (assets.map (·.name)).Nodup)
    (ha : a ∈ assets) (hs : st a.name = some (.n s)) :
    ((a.mtime - s).natAbs < 15 * 60 → a ∉ (ledgerAssets st assets).2) ∧
    (15 * 60 ≤ (a.mtime - s).natAbs → a ∈ (ledgerAssets st assets).2) := by
  have hmem : a ∈ (ledgerAssets st assets).2 ↔ assetSame (st a.name) a = false := by
    simp only [ledgerAssets]
    exact ledgerFilter_mem_iff _ _ _ st assets a hnd ha
  have hsame : assetSame (st a.name) a =
      decide ((a.mtime - s).natAbs < 15 * 60) := by
    simp [assetSame, hs, toNum, unixtimeCloseEnough]
  constructor
  · intro hlt hin
    have hf := hmem.mp hin
    rw [hsame] at hf
    simp [hlt] at hf
  · intro hge
    apply hmem.mpr
    rw [hsame]
    simp [Nat.not_lt.mpr hge]

/-- Witness for C1 at a concrete store and asset list. -/
theorem C1_asset_tolerance_window_witness :
    (((1000 : Int) - 0).natAbs < 15 * 60 →
      (⟨"img.png", "img.png", "png", 1000, 0⟩ : TFile) ∉
        (ledgerAssets (fun k => if k = "img.png" then some (MVal.n 0) else none)
          [⟨"img.png", "img.png", "png", 1000, 0⟩]).2) ∧
    (15 * 60 ≤ ((1000 : Int) - 0).natAbs →
      (⟨"img.png", "img.png", "png", 1000, 0⟩ : TFile) ∈
        (ledgerAssets (fun k => if k = "img.png" then some (MVal.n 0) else none)
          [⟨"img.png", "img.png", "png", 1000, 0⟩]).2) :=
  C1_asset_tolerance_window
    (fun k => if k = "img.png" then some (MVal.n 0) else none)
    [⟨"img.png", "img.png", "png", 1000, 0⟩]
    ⟨"img.png", "img.png", "png", 1000, 0⟩ 0
    (by decide) (by decide) (by decide)

/-- C7 counterexample: an asset whose stored marker (0) is within the
tolerance window of its current mtime (100) is reported unchanged, and
the pass leaves its stored marker at 0 — the ledger is *not* mutated
for this examined artifact, contradicting the claim that the stored
marker still ends up equal to the current marker. -/
theorem C7_counterexample :
    ((ledgerPass (fun k => if k = "img.png" then some (MVal.n 0) else none)
        [] [] [⟨"img.png", "img.png", "png", 100, 0⟩] []).store "img.png" ≠
      some (MVal.n 100)) ∧
    ((ledgerPass (fun k => if k = "img.png" then some (MVal.n 0) else none)
        [] [] [⟨"img.png", "img.png", "png", 100, 0⟩] []).store "img.png" =
      some (MVal.n 0)) ∧
    (⟨"img.png", "img.png", "png", 100, 0⟩ : TFile) ∉
      (ledgerPass (fun k => if k = "img.png" then some (MVal.n 0) else none)
        [] [] [⟨"img.png", "img.png", "png", 100, 0⟩] []).pubAssets := by
  decide

/-- C7 (amended): the single ledger pass examines all four candidate
lists against one threaded store.  For notes, the stored marker always
ends equal to the current `updated` marker (for an unchanged note it was
already equal; for a changed note it is advanced exactly when the note
is kept for publishing).  For assets, a changed asset is kept and its
marker advanced to the current mtime, while an asset judged unchanged is
dropped and its stored marker is left untouched (within the tolerance
window of, but not necessarily equal to, the current mtime). -/
theorem C7_ledger_mutation (st : Store) (pn : List PubNote)
    (sn : List SecretDraft) (pa sa : List TFile)
    (hnd : (pn.map (·.name) ++ sn.map (·.name) ++ pa.map (·.name) ++
      sa.map (·.name)).Nodup) :
    (∀ n ∈ pn, (ledgerPass st pn sn pa sa).store n.name = some (.s n.updated) ∧
      (n ∈ (ledgerPass st pn sn pa sa).pubNotes ↔
        st n.name ≠ some (.s n.updated))) ∧
    (∀ n ∈ sn, (ledgerPass st pn sn pa sa).store n.name = some (.s n.updated) ∧
      (n ∈ (ledgerPass st pn sn pa sa).secNotes ↔
        st n.name ≠ some (.s n.updated))) ∧
    (∀ a ∈ pa, (a ∈ (ledgerPass st pn sn pa sa).pubAssets ↔
        assetSame (st a.name) a = false) ∧
      (ledgerPass st pn sn pa sa).store a.name =
        (if assetSame (st a.name) a then st a.name else some (.n a.mtime))) ∧
    (∀ a ∈ sa, (a ∈ (ledgerPass st pn sn pa sa).secAssets ↔
        assetSame (st a.name) a = false) ∧
      (ledgerPass st pn sn pa sa).store a.name =
        (if assetSame (st a.name) a then st a.name else some (.n a.mtime))) :=
  ⟨fun n hn => ledgerPass_pubNote_spec st pn sn pa sa hnd n hn,
   fun n hn => ledgerPass_secNote_spec st pn sn pa sa hnd n hn,
   fun a ha => ledgerPass_pubAsset_spec st pn sn pa sa hnd a ha,
   fun a ha => ledgerPass_secAsset_spec st pn sn pa sa hnd a ha⟩

/-- Witness for the amended C7 on a concrete four-list pass. -/
theorem C7_ledger_mutation_witness :
    (ledgerPass (fun k => if k = "A.md" then some (MVal.s "2024-01-01") else none)
        [⟨"A.md", "2024-01-02", "b", "h"⟩] [] [] []).store "A.md" =
      some (.s "2024-01-02") ∧
    ((⟨"A.md", "2024-01-02", "b", "h"⟩ : PubNote) ∈
        (ledgerPass (fun k => if k = "A.md" then some (MVal.s "2024-01-01") else none)
          [⟨"A.md", "2024-01-02", "b", "h"⟩] [] [] []).pubNotes ↔
      (fun k => if k = "A.md" then some (MVal.s "2024-01-01") else none) "A.md" ≠
        some (.s "2024-01-02")) :=
  (C7_ledger_mutation
    (fun k => if k = "A.md" then some (MVal.s "2024-01-01") else none)
    [⟨"A.md", "2024-01-02", "b", "h"⟩] [] [] [] (by decide)).1
    ⟨"A.md", "2024-01-02", "b", "h"⟩ (by decide)

/-- After one ledger pass, the resulting store judges every artifact of
the same candidate lists unchanged: a second pass keeps nothing and
leaves the store untouched. -/
theorem ledgerPass_second_run (st : Store) (pn : List PubNote)
    (sn : List SecretDraft) (pa sa : List TFile)
    (hnd : (pn.map (·.name) ++ sn.map (·.name) ++ pa.map (·.name) ++
      sa.map (·.name)).Nodup) :
    ledgerPass (ledgerPass st pn sn pa sa).store pn sn pa sa =
      ⟨(ledgerPass st pn sn pa sa).store, [], [], [], []⟩ := by
  set r := (ledgerPass st pn sn pa sa).store with hr
  have hp1 : ledgerPubNotes r pn = (r, []) := by
    simp only [ledgerPubNotes]
    refine ledgerFilter_id _ _ _ _ _ (fun n hn => ?_)
    exact (noteSame_true_iff _ _).mpr
      (ledgerPass_pubNote_spec st pn sn pa sa hnd n hn).1
  have hp2 : ledgerSecNotes r sn = (r, []) := by
    simp only [ledgerSecNotes]
    refine ledgerFilter_id _ _ _ _ _ (fun n hn => ?_)
    exact (noteSame_true_iff _ _).mpr
      (ledgerPass_secNote_spec st pn sn pa sa hnd n hn).1
  have hassetSame : ∀ (a : TFile),
      (r a.name = (if assetSame (st a.name) a then st a.name
        else some (.n a.mtime))) → assetSame (r a.name) a = true := by
    intro a hval
    by_cases h : assetSame (st a.name) a
    · rw [hval, if_pos h]; exact h
    · rw [hval, if_neg h]
      simp [assetSame, toNum, unixtimeCloseEnough]
  have hp3 : ledgerAssets r pa = (r, []) := by
    simp only [ledgerAssets]
    refine ledgerFilter_id _ _ _ _ _ (fun a ha => ?_)
    exact hassetSame a (ledgerPass_pubAsset_spec st pn sn pa sa hnd a ha).2
  have hp4 : ledgerAssets r sa = (r, []) := by
    simp only [ledgerAssets]
    refine ledgerFilter_id _ _ _ _ _ (fun a ha => ?_)
    exact hassetSame a (ledgerPass_secAsset_spec st pn sn pa sa hnd a ha).2
  simp [ledgerPass, hp1, hp2, hp3, hp4]

/-- C10: the ledger store is read-modify-written before either sink
runs, so the store that survives the run is exactly the ledger-pass
store no matter how the sinks fare (`bf`/`u` inject public-blob and
secret-upload failures); and a second pass over the same candidate
lists — the next run with artifacts unchanged on disk — keeps nothing,
so an artifact whose upload failed is not retried. -/
theorem C10_ledger_survives_sink_failure (st : Store) (pn : List PubNote)
    (sn : List SecretDraft) (pa sa : List TFile)
    (hnd : (pn.map (·.name) ++ sn.map (·.name) ++ pa.map (·.name) ++
      sa.map (·.name)).Nodup)
    (bf bf' : String → Bool) (rb64 rb64' rb rb' : TFile → String)
    (u u' : Option String) (repo repo' : RemoteRepo) :
    (publishRun bf rb64 rb u repo st pn sn pa sa).1.store =
      (ledgerPass st pn sn pa sa).store ∧
    (publishRun bf' rb64' rb' u' repo' st pn sn pa sa).1.store =
      (ledgerPass st pn sn pa sa).store ∧
    ledgerPass ((publishRun bf rb64 rb u repo st pn sn pa sa).1.store)
        pn sn pa sa =
      ⟨(ledgerPass st pn sn pa sa).store, [], [], [], []⟩ :=
  ⟨rfl, rfl, ledgerPass_second_run st pn sn pa sa hnd⟩

/-- Witness for C10 with a failing public sink and a failing secret
upload over a one-note, one-asset batch. -/
theorem C10_ledger_survives_sink_failure_witness :
    (publishRun (fun _ => true) (fun _ => "bin") (fun _ => "bin")
        (some "err") ⟨[], [], [], "c0", "t0"⟩
        (fun _ => none) [⟨"A.md", "2024-01-02", "b", "h"⟩] []
        [⟨"img.png", "img.png", "png", 100, 0⟩] []).1.store =
      (ledgerPass (fun _ => none) [⟨"A.md", "2024-01-02", "b", "h"⟩] []
        [⟨"img.png", "img.png", "png", 100, 0⟩] []).store ∧
    (publishRun (fun _ => false) (fun _ => "bin") (fun _ => "bin")
        none ⟨[], [], [], "c0", "t0"⟩
        (fun _ => none) [⟨"A.md", "2024-01-02", "b", "h"⟩] []
        [⟨"img.png", "img.png", "png", 100, 0⟩] []).1.store =
      (ledgerPass (fun _ => none) [⟨"A.md", "2024-01-02", "b", "h"⟩] []
        [⟨"img.png", "img.png", "png", 100, 0⟩] []).store ∧
    ledgerPass ((publishRun (fun _ => true) (fun _ => "bin") (fun _ => "bin")
        (some "err") ⟨[], [], [], "c0", "t0"⟩
        (fun _ => none) [⟨"A.md", "2024-01-02", "b", "h"⟩] []
        [⟨"img.png", "img.png", "png", 100, 0⟩] []).1.store)
        [⟨"A.md", "2024-01-02", "b", "h"⟩] []
        [⟨"img.png", "img.png", "png", 100, 0⟩] [] =
      ⟨(ledgerPass (fun _ => none) [⟨"A.md", "2024-01-02", "b", "h"⟩] []
        [⟨"img.png", "img.png", "png", 100, 0⟩] []).store, [], [], [], []⟩ :=
  C10_ledger_survives_sink_failure (fun _ => none)
    [⟨"A.md", "2024-01-02", "b", "h"⟩] []
    [⟨"img.png", "img.png", "png", 100, 0⟩] [] (by decide)
    (fun _ => true) (fun _ => false) (fun _ => "bin") (fun _ => "bin")
    (fun _ => "bin") (fun _ => "bin") (some "err") none
    ⟨[], [], [], "c0", "t0"⟩ ⟨[], [], [], "c0", "t0"⟩

/-! ## Classification properties -/

theorem normLayout_created (fm : Frontmatter) :
    (normLayout fm).created = fm.created := by
  unfold normLayout; split <;> rfl

theorem normLayout_updated (fm : Frontmatter) :
    (normLayout fm).updated = fm.updated := by
  unfold normLayout; split <;> rfl

theorem normLayout_uuid (fm : Frontmatter) :
    (normLayout fm).uuid = fm.uuid := by
  unfold normLayout; split <;> rfl

theorem normLayout_post (fm : Frontmatter) :
    (normLayout fm).post = fm.post := by
  unfold normLayout; split <;> rfl

theorem normLayout_layout (fm : Frontmatter) :
    (normLayout fm).layout =
      (if fm.layout.getD "" ≠ "" then fm.layout else some "base.njk") := by
  unfold normLayout; split <;> simp_all

/-- C3 counterexample: a note carrying the public marker but no
`created`, no `updated` (and no layout) is classified `public`, yet the
classification callback leaves `created` and `updated` absent — no
creation timestamp is derived from the file and no update timestamp is
stamped, only the default layout is assigned. -/
theorem C3_counterexample :
    (classifyNote "u" ⟨⟨"A.md", "A.md", "md", 5, 1⟩,
      { post := some "snlx.net" }, "hello"⟩).2 = NoteClass.pub ∧
    (classifyNote "u" ⟨⟨"A.md", "A.md", "md", 5, 1⟩,
      { post := some "snlx.net" }, "hello"⟩).1.updated = none ∧
    (classifyNote "u" ⟨⟨"A.md", "A.md", "md", 5, 1⟩,
      { post := some "snlx.net" }, "hello"⟩).1.created = none ∧
    (classifyNote "u" ⟨⟨"A.md", "A.md", "md", 5, 1⟩,
      { post := some "snlx.net" }, "hello"⟩).1.layout = some "base.njk" := by
  decide

/-- C3 (amended): for every note classified public or secret, the only
timestamp-or-layout normalization the callback applies is the layout
default — a missing layout tag is set to `base.njk`, a present one is
kept — while the `created` and `updated` fields are left exactly as
they were (no creation time is derived, no update timestamp is
stamped). -/
theorem C3_layout_only_normalization (fresh : String) (n : Note)
    (h : (classifyNote fresh n).2 ≠ NoteClass.priv) :
    (classifyNote fresh n).1.created = n.fm.created ∧
    (classifyNote fresh n).1.updated = n.fm.updated ∧
    (classifyNote fresh n).1.layout =
      (if n.fm.layout.getD "" ≠ "" then n.fm.layout else some "base.njk") := by
  unfold classifyNote at *
  by_cases h1 : strContains (n.fm.post.getD "") "snlx.net"
  · simp only [if_pos h1]
    exact ⟨normLayout_created _, normLayout_updated _, normLayout_layout _⟩
  · by_cases h2 : n.fm.post.getD "" ≠ ""
    · simp only [if_neg h1, if_pos h2]
      refine ⟨normLayout_created _, normLayout_updated _, ?_⟩
      rw [normLayout_layout]
    · by_cases h3 : n.fm.uuid.getD "" ≠ ""
      · simp only [if_neg h1, if_neg h2, if_pos h3]
        refine ⟨normLayout_created _, normLayout_updated _, ?_⟩
        rw [normLayout_layout]
      · simp only [if_neg h1, if_neg h2, if_neg h3] at h
        exact absurd rfl h

/-- Witness for the amended C3 on a concrete public note. -/
theorem C3_layout_only_normalization_witness :
    (classifyNote "u" ⟨⟨"A.md", "A.md", "md", 5, 1⟩,
      { post := some "snlx.net", created := some "2020-01-01" },
      "hello"⟩).1.created = some "2020-01-01" ∧
    (classifyNote "u" ⟨⟨"A.md", "A.md", "md", 5, 1⟩,
      { post := some "snlx.net", created := some "2020-01-01" },
      "hello"⟩).1.updated = none ∧
    (classifyNote "u" ⟨⟨"A.md", "A.md", "md", 5, 1⟩,
      { post := some "snlx.net", created := some "2020-01-01" },
      "hello"⟩).1.layout =
      (if (none : Option String).getD "" ≠ "" then none
        else some "base.njk") :=
  C3_layout_only_normalization "u"
    ⟨⟨"A.md", "A.md", "md", 5, 1⟩,
      { post := some "snlx.net", created := some "2020-01-01" }, "hello"⟩
    (by decide)

/-- Classification of a note whose `post` tag is absent and whose
`uuid` is truthy takes the identifier-present branch: the note is
secret and the identifier is untouched. -/
theorem classifyNote_uuid_branch (fresh : String) (m : Note)
    (hpost : m.fm.post = none) (hu : m.fm.uuid.getD "" ≠ "") :
    (classifyNote fresh m).2 = NoteClass.secret ∧
    (classifyNote fresh m).1.uuid = m.fm.uuid := by
  unfold classifyNote
  rw [hpost]
  simp only [Option.getD_none]
  rw [if_neg (by decide), if_neg (by simp), if_pos hu]
  exact ⟨rfl, by simp [normLayout_uuid]⟩

/-- C4: a note with a non-empty publish-intent tag that fails the
public-marker test gets a fresh identifier (`frontmatter["uuid"] =
crypto.randomUUID()` — non-empty), loses its `post` tag, and is
classified secret; re-running classification on the mutated state
classifies it secret again through the identifier-present branch and
leaves the identifier unchanged. -/
theorem C4_secret_classification_idempotent (u1 u2 : String) (n : Note)
    (h1 : n.fm.post.getD "" ≠ "")
    (h2 : strContains (n.fm.post.getD "") "snlx.net" = false)
    (h3 : u1 ≠ "") :
    (classifyNote u1 n).2 = NoteClass.secret ∧
    (classifyNote u1 n).1.uuid = some u1 ∧
    (classifyNote u1 n).1.post = none ∧
    (classifyNote u2 { n with fm := (classifyNote u1 n).1 }).2 =
      NoteClass.secret ∧
    (classifyNote u2 { n with fm := (classifyNote u1 n).1 }).1.uuid =
      some u1 := by
  have hfirst : classifyNote u1 n =
      (normLayout { n.fm with uuid := some u1, name := some n.file.name,
                              post := none }, .secret) := by
    unfold classifyNote
    rw [if_neg (by simp [h2]), if_pos h1]
  have hpost : (classifyNote u1 n).1.post = none := by
    rw [hfirst]; simp [normLayout_post]
  have huuid : (classifyNote u1 n).1.uuid = some u1 := by
    rw [hfirst]; simp [normLayout_uuid]
  have hu2 : ({ n with fm := (classifyNote u1 n).1 } : Note).fm.uuid.getD ""
      ≠ "" := by
    show ((classifyNote u1 n).1).uuid.getD "" ≠ ""
    rw [huuid]
    simpa using h3
  have hsecond := classifyNote_uuid_branch u2
    { n with fm := (classifyNote u1 n).1 } hpost hu2
  refine ⟨by rw [hfirst], huuid, hpost, hsecond.1, ?_⟩
  rw [hsecond.2]
  exact huuid

/-- Witness for C4 on a concrete drafted note. -/
theorem C4_secret_classification_idempotent_witness :
    (classifyNote "uuid-1" ⟨⟨"B.md", "B.md", "md", 5, 1⟩,
      { post := some "draft" }, "body"⟩).2 = NoteClass.secret ∧
    (classifyNote "uuid-1" ⟨⟨"B.md", "B.md", "md", 5, 1⟩,
      { post := some "draft" }, "body"⟩).1.uuid = some "uuid-1" ∧
    (classifyNote "uuid-1" ⟨⟨"B.md", "B.md", "md", 5, 1⟩,
      { post := some "draft" }, "body"⟩).1.post = none ∧
    (classifyNote "uuid-2" ⟨⟨"B.md", "B.md", "md", 5, 1⟩,
      (classifyNote "uuid-1" ⟨⟨"B.md", "B.md", "md", 5, 1⟩,
        { post := some "draft" }, "body"⟩).1, "body"⟩).2 =
      NoteClass.secret ∧
    (classifyNote "uuid-2" ⟨⟨"B.md", "B.md", "md", 5, 1⟩,
      (classifyNote "uuid-1" ⟨⟨"B.md", "B.md", "md", 5, 1⟩,
        { post := some "draft" }, "body"⟩).1, "body"⟩).1.uuid =
      some "uuid-1" :=
  C4_secret_classification_idempotent "uuid-1" "uuid-2"
    ⟨⟨"B.md", "B.md", "md", 5, 1⟩, { post := some "draft" }, "body"⟩
    (by decide) (by decide) (by decide)

/-! ## Link graph properties -/

/-- Every element of the classified `pub` list comes from a note the
classification callback sorted into the public class. -/
theorem classifyAll_pub_src (g : TFile → String) :
    ∀ (ns : List Note), ∀ m ∈ (classifyAll g ns).1,
      ∃ n, n ∈ ns ∧ n.file = m.file ∧
        (classifyNote (g n.file) n).2 = NoteClass.pub := by
  intro ns
  induction ns with
  | nil => intro m hm; simp [classifyAll] at hm
  | cons n rest ih =>
    intro m hm
    simp only [classifyAll] at hm
    rcases hcls : (classifyNote (g n.file) n).2 with _ | _ | _ <;>
      rw [hcls] at hm
    · rcases List.mem_cons.mp hm with rfl | h2
      · exact ⟨n, List.mem_cons_self _ _, rfl, hcls⟩
      · obtain ⟨x, hx1, hx2, hx3⟩ := ih m h2
        exact ⟨x, List.mem_cons_of_mem _ hx1, hx2, hx3⟩
    · obtain ⟨x, hx1, hx2, hx3⟩ := ih m hm
      exact ⟨x, List.mem_cons_of_mem _ hx1, hx2, hx3⟩
    · obtain ⟨x, hx1, hx2, hx3⟩ := ih m hm
      exact ⟨x, List.mem_cons_of_mem _ hx1, hx2, hx3⟩

/-- C2 counterexample: a public note embedding `![[priv.md]]` produces a
link-tree edge whose target `priv.md` is a private note (no
publish-intent tag, no identifier) — no pruning pass removes it, so the
link graph does contain an edge with a private endpoint. -/
theorem C2_counterexample :
    ((⟨"B.md", "B.md", "md", 0, 0⟩ : TFile), (⟨"priv.md", "priv.md", "md", 0, 0⟩ : TFile)) ∈
      buildLinkTree ⟨[⟨⟨"B.md", "B.md", "md", 0, 0⟩,
          { post := some "snlx.net" }, "![[priv.md]]"⟩,
        ⟨⟨"priv.md", "priv.md", "md", 0, 0⟩, {}, "secret stuff"⟩], []⟩
        (classifyAll (fun _ => "u") [⟨⟨"B.md", "B.md", "md", 0, 0⟩,
          { post := some "snlx.net" }, "![[priv.md]]"⟩,
        ⟨⟨"priv.md", "priv.md", "md", 0, 0⟩, {}, "secret stuff"⟩]).1 ∧
    (classifyNote "u" ⟨⟨"priv.md", "priv.md", "md", 0, 0⟩, {},
      "secret stuff"⟩).2 = NoteClass.priv := by
  decide

/-- C2 (amended): every edge of the built link tree has a source that
classification sorted into the public class (hence never a private
note); targets are *not* pruned and may be private, as the
counterexample shows. -/
theorem C2_edge_source_public (g : TFile → String) (v : Vault)
    (e : TFile × TFile)
    (he : e ∈ buildLinkTree v (classifyAll g v.notes).1) :
    ∃ n, n ∈ v.notes ∧ n.file = e.1 ∧
      (classifyNote (g n.file) n).2 = NoteClass.pub := by
  obtain ⟨m, hm, he2⟩ := List.mem_flatMap.mp he
  obtain ⟨l, _, hl2⟩ := List.mem_filterMap.mp he2
  have hfst : e.1 = m.file := by
    rcases hres : getFileByPath v l with _ | lf
    · rw [hres] at hl2; simp at hl2
    · rw [hres] at hl2
      dsimp only at hl2
      by_cases hext : lf.extension = "md"
      · rw [if_pos hext] at hl2
        cases hl2
        rfl
      · rw [if_neg hext] at hl2; simp at hl2
  obtain ⟨n, hn1, hn2, hn3⟩ := classifyAll_pub_src g v.notes m hm
  exact ⟨n, hn1, hfst ▸ hn2, hn3⟩

/-- Witness for the amended C2 at the counterexample's edge. -/
theorem C2_edge_source_public_witness :
    ∃ n, n ∈ [(⟨⟨"B.md", "B.md", "md", 0, 0⟩,
        { post := some "snlx.net" }, "![[priv.md]]"⟩ : Note),
      ⟨⟨"priv.md", "priv.md", "md", 0, 0⟩, {}, "secret stuff"⟩] ∧
      n.file = (⟨"B.md", "B.md", "md", 0, 0⟩ : TFile) ∧
      (classifyNote ((fun _ => "u") n.file) n).2 = NoteClass.pub :=
  C2_edge_source_public (fun _ => "u")
    ⟨[⟨⟨"B.md", "B.md", "md", 0, 0⟩, { post := some "snlx.net" },
        "![[priv.md]]"⟩,
      ⟨⟨"priv.md", "priv.md", "md", 0, 0⟩, {}, "secret stuff"⟩], []⟩
    (⟨"B.md", "B.md", "md", 0, 0⟩, ⟨"priv.md", "priv.md", "md", 0, 0⟩)
    (by decide)

/-! ## Secret-note identifier properties -/

/-- A note the callback classifies secret carries a truthy identifier
afterwards, provided the generated UUID is non-empty. -/
theorem classifyNote_secret_uuid (fresh : String) (n : Note)
    (hf : fresh ≠ "") (h : (classifyNote fresh n).2 = NoteClass.secret) :
    (classifyNote fresh n).1.uuid.getD "" ≠ "" := by
  unfold classifyNote at *
  by_cases h1 : strContains (n.fm.post.getD "") "snlx.net"
  · rw [if_pos h1] at h; cases h
  · by_cases h2 : n.fm.post.getD "" ≠ ""
    · rw [if_neg h1, if_pos h2]
      simp [normLayout_uuid, hf]
    · by_cases h3 : n.fm.uuid.getD "" ≠ ""
      · rw [if_neg h1, if_neg h2, if_pos h3]
        simpa [normLayout_uuid] using h3
      · rw [if_neg h1, if_neg h2, if_neg h3] at h; cases h

/-- Every entry of the `secretIds` table built by classification has a
non-empty identifier, provided generated UUIDs are non-empty. -/
theorem classifyAll_ids_nonempty (g : TFile → String)
    (hg : ∀ f, g f ≠ "") :
    ∀ (ns : List Note), ∀ e ∈ (classifyAll g ns).2.2, e.uuid ≠ "" := by
  intro ns
  induction ns with
  | nil => intro e he; simp [classifyAll] at he
  | cons n rest ih =>
    intro e he
    simp only [classifyAll] at he
    rcases hcls : (classifyNote (g n.file) n).2 with _ | _ | _ <;>
      rw [hcls] at he
    · exact ih e he
    · rcases List.mem_cons.mp he with rfl | h2
      · exact classifyNote_secret_uuid (g n.file) n (hg n.file) hcls
      · exact ih e h2
    · exact ih e he

/-- Kept drafts of the UUID filter are drafts with a present `uuid`. -/
theorem filterSecret_kept (drafts : List SecretDraft) :
    ∀ d ∈ (filterSecret drafts).1, d ∈ drafts ∧ d.uuid ≠ none := by
  induction drafts with
  | nil => intro d hd; simp [filterSecret] at hd
  | cons x rest ih =>
    intro d hd
    simp only [filterSecret] at hd
    rcases hu : x.uuid with _ | u <;> rw [hu] at hd
    · obtain ⟨h1, h2⟩ := ih d hd
      exact ⟨List.mem_cons_of_mem _ h1, h2⟩
    · rcases List.mem_cons.mp hd with rfl | h2
      · exact ⟨List.mem_cons_self _ _, by simp [hu]⟩
      · obtain ⟨h1, h2⟩ := ih d h2
        exact ⟨List.mem_cons_of_mem _ h1, h2⟩

/-- A draft without a `uuid` raises its warning notice. -/
theorem filterSecret_warns (drafts : List SecretDraft) :
    ∀ d ∈ drafts, d.uuid = none →
      missingUuidWarning d.name ∈ (filterSecret drafts).2 := by
  induction drafts with
  | nil => intro d hd; simp at hd
  | cons x rest ih =>
    intro d hd hnone
    simp only [filterSecret]
    rcases List.mem_cons.mp hd with rfl | h2
    · rw [hnone]
      exact List.mem_cons_self _ _
    · rcases hu : x.uuid with _ | u
      · exact List.mem_cons_of_mem _ (ih d h2 hnone)
      · exact ih d h2 hnone

/-- A draft's `uuid`, when present, comes from some `secretIds` entry. -/
theorem mkSecretDrafts_uuid_src (ids : List SecretId) (secs : List FileMeta) :
    ∀ d ∈ mkSecretDrafts ids secs, ∀ u, d.uuid = some u →
      ∃ e ∈ ids, e.uuid = u := by
  intro d hd u hu
  obtain ⟨m, _, rfl⟩ := List.mem_map.mp hd
  simp only at hu
  rcases hf : ids.find? (fun c => c.name = m.file.name) with _ | entry
  · rw [hf] at hu; cases hu
  · rw [hf] at hu
    cases hu
    exact ⟨entry, List.mem_of_find?_eq_some hf, rfl⟩

/-- C8: drafting the secret batch, a note whose identifier lookup
failed (`uuid` is `undefined`) is dropped by the filter and surfaced as
a warning notice; every draft that remains carries a non-empty
identifier, and `uploadSecret` addresses its request by exactly that
identifier. -/
theorem C8_secret_uuid_invariant (g : TFile → String) (hg : ∀ f, g f ≠ "")
    (ns : List Note) (readBin : TFile → String) (sa : List TFile) :
    (∀ d ∈ mkSecretDrafts (classifyAll g ns).2.2 (classifyAll g ns).2.1,
      d.uuid = none →
        d ∉ (filterSecret (mkSecretDrafts (classifyAll g ns).2.2
          (classifyAll g ns).2.1)).1 ∧
        missingUuidWarning d.name ∈ (filterSecret (mkSecretDrafts
          (classifyAll g ns).2.2 (classifyAll g ns).2.1)).2) ∧
    (∀ d ∈ (filterSecret (mkSecretDrafts (classifyAll g ns).2.2
        (classifyAll g ns).2.1)).1,
      ∃ u, d.uuid = some u ∧ u ≠ "" ∧
        (u, d.body) ∈ uploadSecretReqs readBin
          (filterSecret (mkSecretDrafts (classifyAll g ns).2.2
            (classifyAll g ns).2.1)).1 sa) := by
  constructor
  · intro d hd hnone
    refine ⟨fun hk => ?_, filterSecret_warns _ d hd hnone⟩
    exact (filterSecret_kept _ d hk).2 hnone
  · intro d hd
    obtain ⟨hmem, hne⟩ := filterSecret_kept _ d hd
    rcases hu : d.uuid with _ | u
    · exact absurd hu hne
    · refine ⟨u, rfl, ?_, ?_⟩
      · obtain ⟨e, he, rfl⟩ := mkSecretDrafts_uuid_src _ _ d hmem u hu
        exact classifyAll_ids_nonempty g hg ns e he
      · apply List.mem_append_left
        have := List.mem_map_of_mem
          (fun f : SecretDraft => (f.uuid.getD "", f.body)) hd
        simpa [hu] using this

/-- Witness for C8: one tagged note becomes one secret draft with the
generated identifier used as its upload address. -/
theorem C8_secret_uuid_invariant_witness :
    ∃ u, (⟨"B.md", "1970-01-01", "body", some "u1"⟩ : SecretDraft).uuid =
        some u ∧ u ≠ "" ∧
      (u, "body") ∈ uploadSecretReqs (fun _ => "bin")
        (filterSecret (mkSecretDrafts
          (classifyAll (fun _ => "u1")
            [⟨⟨"B.md", "B.md", "md", 5, 1⟩, { post := some "draft" }, "body"⟩]).2.2
          (classifyAll (fun _ => "u1")
            [⟨⟨"B.md", "B.md", "md", 5, 1⟩, { post := some "draft" }, "body"⟩]).2.1)).1
        [] :=
  (C8_secret_uuid_invariant (fun _ => "u1")
    (fun _ => (by decide : ("u1" : String) ≠ ""))
    [⟨⟨"B.md", "B.md", "md", 5, 1⟩, { post := some "draft" }, "body"⟩]
    (fun _ => "bin") []).2
    ⟨"B.md", "1970-01-01", "body", some "u1"⟩ (by decide)

/-! ## Sink transaction properties -/

/-- C5: if creating any content blob fails — for a note's HTML or an
asset's base64 bytes — the `Promise.all` rejection propagates before
the tree request, so no tree is created, no commit is created, and the
branch ref is left where it was. -/
theorem C5_commit_transactional (bf : String → Bool) (rb : TFile → String)
    (repo : RemoteRepo) (files : List PubNote) (assets : List TFile)
    (h : (∃ f ∈ files, bf f.html = true) ∨ (∃ a ∈ assets, bf (rb a) = true)) :
    (commitRun bf rb repo files assets).2 = false ∧
    (commitRun bf rb repo files assets).1.trees = repo.trees ∧
    (commitRun bf rb repo files assets).1.commits = repo.commits ∧
    (commitRun bf rb repo files assets).1.branchMain = repo.branchMain := by
  have hany : (files.map (·.html) ++ assets.map rb).any bf = true := by
    rw [List.any_eq_true]
    rcases h with ⟨f, hf, hbf⟩ | ⟨a, ha, hbf⟩
    · exact ⟨f.html, List.mem_append_left _ (List.mem_map_of_mem _ hf), hbf⟩
    · exact ⟨rb a, List.mem_append_right _ (List.mem_map_of_mem _ ha), hbf⟩
  simp [commitRun, hany]

/-- Witness for C5: a failing HTML blob aborts the whole commit. -/
theorem C5_commit_transactional_witness :
    (commitRun (fun c => c == "H") (fun _ => "bin")
      ⟨["old"], [⟨"t0", []⟩], [⟨"m", "t", ["p"]⟩], "c0", "t0"⟩
      [⟨"A.md", "2024", "b", "H"⟩] []).2 = false ∧
    (commitRun (fun c => c == "H") (fun _ => "bin")
      ⟨["old"], [⟨"t0", []⟩], [⟨"m", "t", ["p"]⟩], "c0", "t0"⟩
      [⟨"A.md", "2024", "b", "H"⟩] []).1.trees = [⟨"t0", []⟩] ∧
    (commitRun (fun c => c == "H") (fun _ => "bin")
      ⟨["old"], [⟨"t0", []⟩], [⟨"m", "t", ["p"]⟩], "c0", "t0"⟩
      [⟨"A.md", "2024", "b", "H"⟩] []).1.commits = [⟨"m", "t", ["p"]⟩] ∧
    (commitRun (fun c => c == "H") (fun _ => "bin")
      ⟨["old"], [⟨"t0", []⟩], [⟨"m", "t", ["p"]⟩], "c0", "t0"⟩
      [⟨"A.md", "2024", "b", "H"⟩] []).1.branchMain = "c0" :=
  C5_commit_transactional (fun c => c == "H") (fun _ => "bin")
    ⟨["old"], [⟨"t0", []⟩], [⟨"m", "t", ["p"]⟩], "c0", "t0"⟩
    [⟨"A.md", "2024", "b", "H"⟩] []
    (Or.inl ⟨⟨"A.md", "2024", "b", "H"⟩, by decide, by decide⟩)

/-- C6 counterexample: with a non-empty public batch whose blob upload
fails and a non-empty secret batch, the uncaught `commit` rejection
aborts the command callback — the secret sink is never attempted, no
secret upload is issued, and the run does not complete.  This refutes
the claim that a failure of the public sink does not abort the secret
sink. -/
theorem C6_counterexample :
    ((runSinks (fun c => c == "H") (fun _ => "bin") (fun _ => "bin") none
        ⟨[], [], [], "c0", "t0"⟩ [⟨"A.md", "2024", "b", "H"⟩]
        [⟨"B.md", "2024", "body", some "u1"⟩] [] []).commitAttempted = true) ∧
    ((runSinks (fun c => c == "H") (fun _ => "bin") (fun _ => "bin") none
        ⟨[], [], [], "c0", "t0"⟩ [⟨"A.md", "2024", "b", "H"⟩]
        [⟨"B.md", "2024", "body", some "u1"⟩] [] []).secretAttempted = false) ∧
    ((runSinks (fun c => c == "H") (fun _ => "bin") (fun _ => "bin") none
        ⟨[], [], [], "c0", "t0"⟩ [⟨"A.md", "2024", "b", "H"⟩]
        [⟨"B.md", "2024", "body", some "u1"⟩] [] []).secretUploads = []) ∧
    ((runSinks (fun c => c == "H") (fun _ => "bin") (fun _ => "bin") none
        ⟨[], [], [], "c0", "t0"⟩ [⟨"A.md", "2024", "b", "H"⟩]
        [⟨"B.md", "2024", "body", some "u1"⟩] [] []).completed = false) ∧
    ([⟨"B.md", "2024", "body", some "u1"⟩] : List SecretDraft) ≠ [] := by
  decide

/-- C6 (amended): only the secret sink's failure is caught — when the
public phase does not fail (empty public batch or a successful commit),
a rejected `uploadSecret` is caught by `.catch`, reported through a
`"Failed..."` notice, and the callback still runs to completion, with
every secret upload request still issued. -/
theorem C6_secret_failure_caught (bf : String → Bool)
    (rb64 rb : TFile → String) (err : String) (repo : RemoteRepo)
    (pn : List PubNote) (sn : List SecretDraft) (pa sa : List TFile)
    (h : pubMessage pn pa = "" ∨ (commitRun bf rb64 repo pn pa).2 = true) :
    (runSinks bf rb64 rb (some err) repo pn sn pa sa).completed = true ∧
    (secMessage sn sa ≠ "" →
      (runSinks bf rb64 rb (some err) repo pn sn pa sa).secretAttempted =
        true ∧
      ("Failed" ++ err) ∈
        (runSinks bf rb64 rb (some err) repo pn sn pa sa).notices ∧
      "Secret notes uploaded" ∈
        (runSinks bf rb64 rb (some err) repo pn sn pa sa).notices ∧
      (runSinks bf rb64 rb (some err) repo pn sn pa sa).secretUploads =
        uploadSecretReqs rb sn sa) := by
  have hphase : ∀ (ns : List String) (r : RemoteRepo) (ca : Bool),
      (secretPhase ns r ca (some err) rb sn sa).completed = true ∧
      (secMessage sn sa ≠ "" →
        (secretPhase ns r ca (some err) rb sn sa).secretAttempted = true ∧
        ("Failed" ++ err) ∈ (secretPhase ns r ca (some err) rb sn sa).notices ∧
        "Secret notes uploaded" ∈
          (secretPhase ns r ca (some err) rb sn sa).notices ∧
        (secretPhase ns r ca (some err) rb sn sa).secretUploads =
          uploadSecretReqs rb sn sa) := by
    intro ns r ca
    by_cases hmsg : secMessage sn sa = ""
    · rw [secretPhase, if_pos hmsg]
      exact ⟨rfl, fun hc => absurd hmsg hc⟩
    · rw [secretPhase, if_neg hmsg]
      refine ⟨rfl, fun _ => ⟨rfl, ?_, ?_, rfl⟩⟩
      · simp
      · simp
  rcases h with hmsg | hok
  · rw [runSinks, if_pos hmsg]
    exact hphase _ _ _
  · by_cases hpm : pubMessage pn pa = ""
    · rw [runSinks, if_pos hpm]
      exact hphase _ _ _
    · rw [runSinks, if_neg hpm, if_pos hok]
      exact hphase _ _ _

/-- Witness for the amended C6: empty public batch, failing secret
upload of one draft — caught, reported, completed. -/
theorem C6_secret_failure_caught_witness :
    (runSinks (fun _ => false) (fun _ => "bin") (fun _ => "bin")
      (some "boom") ⟨[], [], [], "c0", "t0"⟩ []
      [⟨"B.md", "2024", "body", some "u1"⟩] [] []).completed = true ∧
    (secMessage [⟨"B.md", "2024", "body", some "u1"⟩] [] ≠ "" →
      (runSinks (fun _ => false) (fun _ => "bin") (fun _ => "bin")
        (some "boom") ⟨[], [], [], "c0", "t0"⟩ []
        [⟨"B.md", "2024", "body", some "u1"⟩] [] []).secretAttempted = true ∧
      ("Failed" ++ "boom") ∈
        (runSinks (fun _ => false) (fun _ => "bin") (fun _ => "bin")
          (some "boom") ⟨[], [], [], "c0", "t0"⟩ []
          [⟨"B.md", "2024", "body", some "u1"⟩] [] []).notices ∧
      "Secret notes uploaded" ∈
        (runSinks (fun _ => false) (fun _ => "bin") (fun _ => "bin")
          (some "boom") ⟨[], [], [], "c0", "t0"⟩ []
          [⟨"B.md", "2024", "body", some "u1"⟩] [] []).notices ∧
      (runSinks (fun _ => false) (fun _ => "bin") (fun _ => "bin")
        (some "boom") ⟨[], [], [], "c0", "t0"⟩ []
        [⟨"B.md", "2024", "body", some "u1"⟩] [] []).secretUploads =
        uploadSecretReqs (fun _ => "bin")
          [⟨"B.md", "2024", "body", some "u1"⟩] []) :=
  C6_secret_failure_caught (fun _ => false) (fun _ => "bin") (fun _ => "bin")
    "boom" ⟨[], [], [], "c0", "t0"⟩ [] [⟨"B.md", "2024", "body", some "u1"⟩]
    [] [] (Or.inl (by decide))

/-! ## Properties of the `app://` rewrite -/

theorem tryMatchApp_none_of_ne (c : Char) (cs : List Char) (h : c ≠ '"') :
    tryMatchApp (c :: cs) = none := by
  simp [tryMatchApp, h]

theorem tryMatchApp_none_of_next_ne (d : Char) (cs : List Char)
    (h : d ≠ 'a') : tryMatchApp ('"' :: d :: cs) = none := by
  have hpre : "app://".data.isPrefixOf (d :: cs) = false := by
    show List.isPrefixOf ('a' :: "pp://".data) (d :: cs) = false
    simp [List.isPrefixOf, Ne.symm h]
  simp [tryMatchApp, hpre]

theorem quoteSeg_append (x y : List Char) :
    ∀ p, quoteSeg p (x ++ y) =
      (quoteSeg p x && quoteSeg (quoteCarry p x) y) := by
  induction x with
  | nil => intro p; simp [quoteSeg, quoteCarry]
  | cons c rest ih =>
    intro p
    simp [quoteSeg, quoteCarry, ih, Bool.and_assoc]

theorem quoteCarry_append (x y : List Char) :
    ∀ p, quoteCarry p (x ++ y) = quoteCarry (quoteCarry p x) y := by
  induction x with
  | nil => intro p; simp [quoteCarry]
  | cons c rest ih => intro p; simp [quoteCarry, ih]

theorem quoteSeg_no_quote (x : List Char) (h : '"' ∉ x) :
    quoteSeg false x = true := by
  induction x with
  | nil => rfl
  | cons c rest ih =>
    have hc : (c == '"') = false := by
      simp
      exact fun hc => h (hc ▸ List.mem_cons_self _ _)
    rw [quoteSeg, hc]
    simpa using ih (fun hm => h (List.mem_cons_of_mem _ hm))

theorem quoteCarry_no_quote (x : List Char) (h : '"' ∉ x) (q : Bool) :
    quoteCarry q x = (q && x.isEmpty) := by
  induction x generalizing q with
  | nil => simp [quoteCarry]
  | cons c rest ih =>
    have hc : (c == '"') = false := by
      simp
      exact fun hc => h (hc ▸ List.mem_cons_self _ _)
    rw [quoteCarry, hc, ih (fun hm => h (List.mem_cons_of_mem _ hm))]
    simp

theorem rewriteAppGo_id (cs : List Char) :
    ∀ (p : Bool) (n : Nat), quoteSeg p cs = true →
      quoteCarry p cs = false → cs.length ≤ n → rewriteAppGo n cs = cs := by
  induction cs with
  | nil => intro p n _ _ _; cases n <;> rfl
  | cons c rest ih =>
    intro p n hseg hcar hn
    rcases n with _ | m
    · simp at hn
    · rw [quoteSeg, Bool.and_eq_true] at hseg
      rw [quoteCarry] at hcar
      by_cases hc : c = '"'
      · have hcq : (c == '"') = true := by simp [hc]
        rcases rest with _ | ⟨d, rest2⟩
        · rw [hcq] at hcar; simp [quoteCarry] at hcar
        · have hd : d ≠ 'a' := by
            intro hda
            rw [hcq, quoteSeg, hda] at hseg
            simp at hseg
          subst hc
          rw [rewriteAppGo, tryMatchApp_none_of_next_ne d rest2 hd]
          rw [ih ('"' == '"') m hseg.2 hcar (Nat.le_of_succ_le_succ hn)]
      · rw [rewriteAppGo, tryMatchApp_none_of_ne c rest hc]
        rw [ih _ m hseg.2 hcar (Nat.le_of_succ_le_succ (by simpa using hn))]

theorem rewriteAppUrls_id (s : String)
    (h1 : quoteSeg false s.data = true)
    (h2 : quoteCarry false s.data = false) : rewriteAppUrls s = s := by
  rw [rewriteAppUrls, rewriteAppGo_id s.data false s.data.length h1 h2
    (le_refl _)]


/-! ## Renderer navigation and round-trip -/

theorem navEntries_fillTemplateDoc (path : String) (content : List Dom) :
    navEntriesOf (fillTemplateDoc path content) = [("current", path)] := by
  simp [navEntriesOf, fillTemplateDoc, stripAnchorAttrs, stripAnchorList,
    navDom, navUlItems, mkLinkLi, backLinks, forwardLinks, findUl, findUlList,
    liEntry, svgSource]

theorem containsStr_self (n : String) : containsStr n n :=
  ⟨[], [], by simp⟩

theorem containsStr_appSelf (b n : String) : containsStr (n ++ b) n :=
  ⟨[], b.data, by simp [String.data_append]⟩

theorem containsStr_appR (a b n : String) (h : containsStr b n) :
    containsStr (a ++ b) n := by
  obtain ⟨s, t, hst⟩ := h
  exact ⟨a.data ++ s, t, by rw [String.data_append, ← hst]; simp⟩

theorem containsStr_appL (a b n : String) (h : containsStr a n) :
    containsStr (a ++ b) n := by
  obtain ⟨s, t, hst⟩ := h
  exact ⟨s, t ++ b.data, by rw [String.data_append, ← hst]; simp⟩

theorem strEq_of_data (a b : String) (h : a.data = b.data) : a = b := by
  cases a
  cases b
  exact congrArg String.mk h

theorem segOk_cons (x y : List Char) (h1 : quoteSeg false x = true)
    (h2 : quoteCarry false x = false) (h3 : quoteSeg false y = true) :
    quoteSeg false (x ++ y) = true := by
  rw [quoteSeg_append, h1, h2, h3]
  rfl

theorem carryOk_cons (x y : List Char) (h2 : quoteCarry false x = false)
    (h3 : quoteCarry false y = false) :
    quoteCarry false (x ++ y) = false := by
  rw [quoteCarry_append, h2, h3]

set_option maxHeartbeats 1000000 in
/-- For a plain-text body (no quotes; rendered as a bare text node), the
`app://` rewrite leaves the assembled page untouched and the body text
survives verbatim in the html substituted into the content slot. -/
theorem filledBody_contains (path body : String) (hp : '"' ∉ path.data)
    (hb : '"' ∉ body.data) :
    containsStr (filledBody path [Dom.text body]) body := by
  have hp1 : quoteSeg false path.data = true := quoteSeg_no_quote _ hp
  have hp2 : quoteCarry false path.data = false := by
    rw [quoteCarry_no_quote _ hp]
    rfl
  have hb1 : quoteSeg false body.data = true := quoteSeg_no_quote _ hb
  have hb2 : quoteCarry false body.data = false := by
    rw [quoteCarry_no_quote _ hb]
    rfl
  have hA1s : quoteSeg false
      ("<nav><h2>Linked Notes</h2><ul><li class=\"current\"><a href=\"/" :
        String).data = true := by decide
  have hA1c : quoteCarry false
      ("<nav><h2>Linked Notes</h2><ul><li class=\"current\"><a href=\"/" :
        String).data = false := by decide
  have hA2s : quoteSeg false ("\">" : String).data = true := by decide
  have hA2c : quoteCarry false ("\">" : String).data = false := by decide
  have hA3s : quoteSeg false
      ("</a></li></ul><a class=\"source\" href=\"https://github.com/snlxnet/snlx.net\">" :
        String).data = true := by decide
  have hA3c : quoteCarry false
      ("</a></li></ul><a class=\"source\" href=\"https://github.com/snlxnet/snlx.net\">" :
        String).data = false := by decide
  have hA4s : quoteSeg false svgSource.data = true := by decide
  have hA4c : quoteCarry false svgSource.data = false := by decide
  have hA5s : quoteSeg false ("</a></nav><main>" : String).data = true := by
    decide
  have hA5c : quoteCarry false ("</a></nav><main>" : String).data = false := by
    decide
  have hA6s : quoteSeg false ("</main>" : String).data = true := by decide
  have hA6c : quoteCarry false ("</main>" : String).data = false := by decide
  set T : String :=
    "<nav><h2>Linked Notes</h2><ul><li class=\"current\"><a href=\"/" ++
    (path ++ ("\">" ++ (path ++
      ("</a></li></ul><a class=\"source\" href=\"https://github.com/snlxnet/snlx.net\">" ++
        (svgSource ++ ("</a></nav><main>" ++ (body ++ "</main>"))))))) with hT
  have hTd : T.data =
      ("<nav><h2>Linked Notes</h2><ul><li class=\"current\"><a href=\"/" :
        String).data ++
      (path.data ++ (("\">" : String).data ++ (path.data ++
        (("</a></li></ul><a class=\"source\" href=\"https://github.com/snlxnet/snlx.net\">" :
          String).data ++
          (svgSource.data ++ (("</a></nav><main>" : String).data ++
            (body.data ++ ("</main>" : String).data))))))) := by
    rw [hT]
    simp [String.data_append]
  have hseg : quoteSeg false T.data = true := by
    rw [hTd]
    exact segOk_cons _ _ hA1s hA1c (segOk_cons _ _ hp1 hp2
      (segOk_cons _ _ hA2s hA2c (segOk_cons _ _ hp1 hp2
        (segOk_cons _ _ hA3s hA3c (segOk_cons _ _ hA4s hA4c
          (segOk_cons _ _ hA5s hA5c (segOk_cons _ _ hb1 hb2 hA6s)))))))
  have hcar : quoteCarry false T.data = false := by
    rw [hTd]
    exact carryOk_cons _ _ hA1c (carryOk_cons _ _ hp2
      (carryOk_cons _ _ hA2c (carryOk_cons _ _ hp2
        (carryOk_cons _ _ hA3c (carryOk_cons _ _ hA4c
          (carryOk_cons _ _ hA5c (carryOk_cons _ _ hb2 hA6c)))))))
  have hS : serializeInner (fillTemplateDoc path [Dom.text body]) = T := by
    apply strEq_of_data
    rw [hTd]
    simp [serializeInner, fillTemplateDoc, stripAnchorAttrs, stripAnchorList,
      navDom, navUlItems, mkLinkLi, backLinks, forwardLinks, serializeDom,
      serializeList, serializeAttrs, svgSource, String.data_append,
      List.append_assoc]
  have hfb : filledBody path [Dom.text body] = T := by
    show rewriteAppUrls (serializeInner (fillTemplateDoc path
      [Dom.text body])) = T
    rw [hS]
    exact rewriteAppUrls_id T hseg hcar
  rw [hfb, hT]
  exact containsStr_appR _ _ _ (containsStr_appR _ _ _ (containsStr_appR _ _ _
    (containsStr_appR _ _ _ (containsStr_appR _ _ _ (containsStr_appR _ _ _
      (containsStr_appR _ _ _ (containsStr_appSelf _ _)))))))

/-- The page shell splits around a single `CONTENT` slot. -/
theorem replaceFirst_template (s : String) :
    replaceFirst HTML_TEMPLATE "CONTENT" s =
      "<!doctype html>\n<html>\n\t<head>\n\t\t<title>bridge wip</title>\n\t\t<link rel=\"stylesheet\" href=\"https://snlx.net/new.css\">\n\t</head>\n\t<body>\n\t\t" ++
      (s ++
        "\n\t\t<!-- TODO router.js -->\n\t\t<!-- TODO include typ.js everywhere so it's downloaded in the bg & cached -->\n\t</body>\n</html>\n") := by
  have hsplit : splitFirstGo ("CONTENT" : String).data
      HTML_TEMPLATE.data.length HTML_TEMPLATE.data =
      some (("<!doctype html>\n<html>\n\t<head>\n\t\t<title>bridge wip</title>\n\t\t<link rel=\"stylesheet\" href=\"https://snlx.net/new.css\">\n\t</head>\n\t<body>\n\t\t" : String).data,
        ("\n\t\t<!-- TODO router.js -->\n\t\t<!-- TODO include typ.js everywhere so it's downloaded in the bg & cached -->\n\t</body>\n</html>\n" : String).data) := by
    decide
  unfold replaceFirst
  rw [hsplit]
  dsimp only
  apply strEq_of_data
  simp [String.data_append]

/-- C9 counterexample: note `B.md` embeds `A.md`, so the link graph has
an edge (B → A) and the claim expects A's rendered navigation list to
open with that back-link; the rendered document's navigation list is
the self-entry only — `fillTemplate` never consults the graph. -/
theorem C9_counterexample :
    backEntriesSpec
      (buildLinkTree ⟨[⟨⟨"A.md", "A.md", "md", 0, 0⟩,
          { post := some "snlx.net" }, "hello"⟩,
        ⟨⟨"B.md", "B.md", "md", 0, 0⟩, { post := some "snlx.net" },
          "![[A.md]]"⟩], []⟩
        (classifyAll (fun _ => "u") [⟨⟨"A.md", "A.md", "md", 0, 0⟩,
          { post := some "snlx.net" }, "hello"⟩,
        ⟨⟨"B.md", "B.md", "md", 0, 0⟩, { post := some "snlx.net" },
          "![[A.md]]"⟩]).1)
      ⟨"A.md", "A.md", "md", 0, 0⟩ = [("back", "B.md")] ∧
    navEntriesOf (fillTemplateDoc "A.md" [Dom.text "hello"]) ≠
      backEntriesSpec
        (buildLinkTree ⟨[⟨⟨"A.md", "A.md", "md", 0, 0⟩,
            { post := some "snlx.net" }, "hello"⟩,
          ⟨⟨"B.md", "B.md", "md", 0, 0⟩, { post := some "snlx.net" },
            "![[A.md]]"⟩], []⟩
          (classifyAll (fun _ => "u") [⟨⟨"A.md", "A.md", "md", 0, 0⟩,
            { post := some "snlx.net" }, "hello"⟩,
          ⟨⟨"B.md", "B.md", "md", 0, 0⟩, { post := some "snlx.net" },
            "![[A.md]]"⟩]).1)
        ⟨"A.md", "A.md", "md", 0, 0⟩ ++
      [("current", "A.md")] ++
      forwardEntriesSpec
        (buildLinkTree ⟨[⟨⟨"A.md", "A.md", "md", 0, 0⟩,
            { post := some "snlx.net" }, "hello"⟩,
          ⟨⟨"B.md", "B.md", "md", 0, 0⟩, { post := some "snlx.net" },
            "![[A.md]]"⟩], []⟩
          (classifyAll (fun _ => "u") [⟨⟨"A.md", "A.md", "md", 0, 0⟩,
            { post := some "snlx.net" }, "hello"⟩,
          ⟨⟨"B.md", "B.md", "md", 0, 0⟩, { post := some "snlx.net" },
            "![[A.md]]"⟩]).1)
        ⟨"A.md", "A.md", "md", 0, 0⟩ := by
  decide

/-- C9 (amended): the rendered document's navigation list consists of
the self-entry alone, whatever the link graph or content — the back-
and forward-link arrays are declared empty and never filled — followed
in the `nav` element by the static source-code link; and for a note
with a plain-text body the rendered text appears verbatim in the string
substituted into the content slot (and hence in the final document). -/
theorem C9_nav_self_only (path body : String) (content : List Dom)
    (hp : '"' ∉ path.data) (hb : '"' ∉ body.data) :
    navEntriesOf (fillTemplateDoc path content) = [("current", path)] ∧
    containsStr (filledBody path [Dom.text body]) body ∧
    containsStr (fillTemplate path [Dom.text body]) body := by
  refine ⟨navEntries_fillTemplateDoc path content, filledBody_contains path
    body hp hb, ?_⟩
  show containsStr (replaceFirst HTML_TEMPLATE "CONTENT"
    (filledBody path [Dom.text body])) body
  rw [replaceFirst_template]
  exact containsStr_appR _ _ _
    (containsStr_appL _ _ _ (filledBody_contains path body hp hb))

/-- Witness for the amended C9 at a concrete path and body. -/
theorem C9_nav_self_only_witness :
    navEntriesOf (fillTemplateDoc "A.md" [Dom.el "p" [] [Dom.text "hello"]]) =
      [("current", "A.md")] ∧
    containsStr (filledBody "A.md" [Dom.text "hello"]) "hello" ∧
    containsStr (fillTemplate "A.md" [Dom.text "hello"]) "hello" :=
  C9_nav_self_only "A.md" "hello" [Dom.el "p" [] [Dom.text "hello"]]
    (by decide) (by decide)
